import Mathlib

/-!
# Verification of `gefsv12_retro_kerchunk`

A shallow embedding of `gefsv12_retro_kerchunk/kerchunk_zarr.py` and proofs
about it.  Python strings are modelled as `List Char`, Python `int` as `Int`
(or `Nat` where the source value is provably nonnegative), Python `dict` as
an insertion-ordered association list, and code that can raise exceptions as
`Except PyErr`.  Each definition carries a comment pointing at the source
lines it embeds.
-/

namespace GefsRetro

/-- The Python exceptions the embedded code can raise. -/
inductive PyErr where
  | assertionError
  | indexError
  | valueError
  | keyError
  | typeError
  | osError
deriving DecidableEq, Repr

/-! ## Decimal digits (Python f-string rendering and `int()` parsing) -/

/-- The character for a single decimal digit (`0 ≤ d ≤ 9`). -/
def digitToChar (d : Nat) : Char := Char.ofNat (48 + d)

/-- The numeric value of a decimal digit character. -/
def charToDigit (c : Char) : Nat := c.toNat - 48

/-- Fuelled digit accumulator: prepends the decimal digits of `n` to `acc`. -/
def natToCharsAux : Nat → Nat → List Char → List Char
  | 0, _, acc => acc
  | fuel + 1, n, acc =>
    if n = 0 then acc else natToCharsAux fuel (n / 10) (digitToChar (n % 10) :: acc)

/-- Decimal rendering of a nonnegative integer, as a Python f-string does it. -/
def natToChars (n : Nat) : List Char :=
  if n = 0 then ['0'] else natToCharsAux n n []

/-- Value of a decimal digit string (left fold, most significant first). -/
def charsToNat (l : List Char) : Nat :=
  l.foldl (fun a c => a * 10 + charToDigit c) 0

/-- Python `int(s)` restricted to all-digit strings, which is the only shape
the embedded code feeds it; anything else raises `ValueError` as `int` does. -/
def parseNatE (l : List Char) : Except PyErr Nat :=
  if l ≠ [] ∧ l.all Char.isDigit then .ok (charsToNat l) else .error .valueError

/-- Python `f"{x:02}"`: zero-pad to width two. -/
def pad2 (x : Nat) : List Char :=
  if x < 10 then '0' :: natToChars x else natToChars x

theorem digitToChar_isDigit {d : Nat} (h : d < 10) : (digitToChar d).isDigit = true := by
  interval_cases d <;> decide

theorem charToDigit_digitToChar {d : Nat} (h : d < 10) : charToDigit (digitToChar d) = d := by
  interval_cases d <;> decide

theorem digitToChar_ne_slash {d : Nat} (h : d < 10) : digitToChar d ≠ '/' := by
  interval_cases d <;> decide

theorem natToCharsAux_acc (fuel : Nat) : ∀ (n : Nat) (acc : List Char),
    natToCharsAux fuel n acc = natToCharsAux fuel n [] ++ acc := by
  induction fuel with
  | zero => intro n acc; simp [natToCharsAux]
  | succ fuel ih =>
    intro n acc
    by_cases h : n = 0
    · simp [natToCharsAux, h]
    · simp only [natToCharsAux, h, if_false]
      rw [ih (n / 10) (digitToChar (n % 10) :: acc), ih (n / 10) [digitToChar (n % 10)]]
      simp

theorem natToCharsAux_digits (fuel : Nat) : ∀ (n : Nat),
    ∀ c ∈ natToCharsAux fuel n [], c.isDigit = true := by
  induction fuel with
  | zero => intro n c hc; simp [natToCharsAux] at hc
  | succ fuel ih =>
    intro n c hc
    by_cases h : n = 0
    · simp [natToCharsAux, h] at hc
    · simp only [natToCharsAux, h, if_false] at hc
      rw [natToCharsAux_acc] at hc
      rcases List.mem_append.mp hc with h1 | h1
      · exact ih _ c h1
      · simp at h1
        subst h1
        exact digitToChar_isDigit (Nat.mod_lt _ (by norm_num))

theorem natToChars_digits (n : Nat) : ∀ c ∈ natToChars n, c.isDigit = true := by
  intro c hc
  unfold natToChars at hc
  by_cases h : n = 0
  · simp [h] at hc; subst hc; decide
  · simp only [h, if_false] at hc
    exact natToCharsAux_digits n n c hc

theorem natToChars_ne_nil (n : Nat) : natToChars n ≠ [] := by
  unfold natToChars
  by_cases h : n = 0
  · simp [h]
  · simp only [h, if_false]
    cases n with
    | zero => omega
    | succ m =>
      simp only [natToCharsAux, h, if_false]
      rw [natToCharsAux_acc]
      simp

theorem natToCharsAux_zero (fuel : Nat) (acc : List Char) :
    natToCharsAux fuel 0 acc = acc := by
  cases fuel <;> simp [natToCharsAux]

theorem charsToNat_append_singleton (l : List Char) (c : Char) :
    charsToNat (l ++ [c]) = charsToNat l * 10 + charToDigit c := by
  simp [charsToNat, List.foldl_append]

theorem charsToNat_natToCharsAux (fuel : Nat) : ∀ n : Nat, n ≠ 0 → n ≤ fuel →
    charsToNat (natToCharsAux fuel n []) = n := by
  induction fuel with
  | zero => intro n h0 hle; omega
  | succ fuel ih =>
    intro n h0 hle
    simp only [natToCharsAux, h0, if_false]
    rw [natToCharsAux_acc]
    rw [charsToNat_append_singleton]
    by_cases hq : n / 10 = 0
    · have hn : n < 10 := by omega
      simp [hq, natToCharsAux_zero, charsToNat, charToDigit_digitToChar (Nat.mod_lt n (by norm_num)),
        Nat.mod_eq_of_lt hn, charToDigit_digitToChar hn]
    · rw [ih (n / 10) hq (by omega)]
      rw [charToDigit_digitToChar (Nat.mod_lt n (by norm_num))]
      omega

theorem charsToNat_natToChars (n : Nat) : charsToNat (natToChars n) = n := by
  unfold natToChars
  by_cases h : n = 0
  · simp [h, charsToNat, charToDigit]
  · simp only [h, if_false]
    exact charsToNat_natToCharsAux n n h le_rfl

theorem parseNatE_natToChars (n : Nat) : parseNatE (natToChars n) = .ok n := by
  unfold parseNatE
  rw [if_pos]
  · rw [charsToNat_natToChars]
  · refine ⟨natToChars_ne_nil n, ?_⟩
    rw [List.all_eq_true]
    intro c hc
    exact natToChars_digits n c hc

/-! ## Python `str.split` on a single-character separator -/

/-- Python `s.split(sep)` for a one-character separator: splits at every
occurrence and keeps empty pieces; `"".split(sep) = [""]`. -/
def pySplit (sep : Char) : List Char → List (List Char)
  | [] => [[]]
  | c :: rest =>
    match pySplit sep rest with
    | [] => [[]]
    | h :: t => if c = sep then [] :: h :: t else (c :: h) :: t

theorem pySplit_ne_nil (sep : Char) (l : List Char) : pySplit sep l ≠ [] := by
  cases l with
  | nil => simp [pySplit]
  | cons c rest =>
    simp only [pySplit]
    cases pySplit sep rest with
    | nil => simp
    | cons h t =>
      by_cases hc : c = sep <;> simp [hc]

theorem pySplit_not_mem {sep : Char} {l : List Char} (h : sep ∉ l) :
    pySplit sep l = [l] := by
  induction l with
  | nil => simp [pySplit]
  | cons c rest ih =>
    have hc : c ≠ sep := fun he => h (he ▸ List.mem_cons_self c rest)
    have hrest : sep ∉ rest := fun hm => h (List.mem_cons_of_mem c hm)
    simp only [pySplit, ih hrest]
    simp [hc]

theorem pySplit_append {sep : Char} {a : List Char} (rest : List Char) (h : sep ∉ a) :
    pySplit sep (a ++ sep :: rest) = a :: pySplit sep rest := by
  induction a with
  | nil =>
    simp only [List.nil_append, pySplit]
    cases hr : pySplit sep rest with
    | nil => exact absurd hr (pySplit_ne_nil sep rest)
    | cons h t => simp
  | cons c a' ih =>
    have hc : c ≠ sep := fun he => h (he ▸ List.mem_cons_self c a')
    have ha' : sep ∉ a' := fun hm => h (List.mem_cons_of_mem c hm)
    simp only [List.cons_append, pySplit]
    rw [show a'.append (sep :: rest) = a' ++ sep :: rest from rfl, ih ha']
    simp [hc]

/-! ## Proleptic Gregorian calendar

`datetime.datetime` / `pd.date_range` arithmetic at daily granularity is
modelled by representing a date as an integer count of days since the Unix
epoch (1970-01-01).  `civilFromDays` and `daysFromCivil` are the standard
division-based conversions between that count and a `(year, month, day)`
civil triple. -/

/-- Day count since 1970-01-01 to civil `(year, month, day)`. -/
def civilFromDays (z0 : Int) : Int × Nat × Nat :=
  let z : Int := z0 + 719468
  let era : Int := Int.fdiv z 146097
  let doe : Nat := (z - era * 146097).toNat
  let yoe : Nat := (doe - doe / 1460 + doe / 36524 - doe / 146096) / 365
  let y : Int := (yoe : Int) + era * 400
  let doy : Nat := doe - (365 * yoe + yoe / 4 - yoe / 100)
  let mp : Nat := (5 * doy + 2) / 153
  let d : Nat := doy - (153 * mp + 2) / 5 + 1
  let m : Nat := if mp < 10 then mp + 3 else mp - 9
  (if m ≤ 2 then y + 1 else y, m, d)

/-- Civil `(year, month, day)` to day count since 1970-01-01. -/
def daysFromCivil (y0 : Int) (m d : Nat) : Int :=
  let y : Int := if m ≤ 2 then y0 - 1 else y0
  let era : Int := Int.fdiv y 400
  let yoe : Nat := (y - era * 400).toNat
  let mp : Nat := if 2 < m then m - 3 else m + 9
  let doy : Nat := (153 * mp + 2) / 5 + d - 1
  let doe : Nat := yoe * 365 + yoe / 4 - yoe / 100 + doy
  era * 146097 + (doe : Int) - 719468

/-- The month of the day numbered `z`. -/
def monthOfDay (z : Int) : Nat := (civilFromDays z).2.1

/-- The day-of-month of the day numbered `z`. -/
def dayOfDay (z : Int) : Nat := (civilFromDays z).2.2

/-- The `"MMDD"` pattern of the day numbered `z`
(`f"{month:02}{day:02}"` in the source). -/
def monthDayPattern (z : Int) : List Char := pad2 (monthOfDay z) ++ pad2 (dayOfDay z)

/-- `RetrospectivePull.date_to_glob_pattern` (kerchunk_zarr.py lines 105-114):
`datetime_min = date - timedelta(days=W)`, `datetime_max = date + timedelta(days=W)`,
`pd.date_range(min, max, freq="D")` is the `2*W + 1` consecutive days starting at
`datetime_min`; the set of `(month, day)` pairs is collected (deduplicated) and
each pair is formatted as `f"{month:02}{day:02}"`. -/
def date_to_glob_pattern (date : Int) (centered_date_range : Nat) : List (List Char) :=
  let datetime_min : Int := date - centered_date_range
  let datetime_range : List Int :=
    (List.range (2 * centered_date_range + 1)).map (fun (k : Nat) => datetime_min + (k : Int))
  let month_day_combinations : List (Nat × Nat) :=
    (datetime_range.map (fun z => (monthOfDay z, dayOfDay z))).dedup
  month_day_combinations.map (fun md => pad2 md.1 ++ pad2 md.2)

/-! ## `fhour_to_message_num` -/

/-- `RetrospectivePull.fhour_to_message_num` (kerchunk_zarr.py lines 98-103):
`assert fhour != 0`, `assert fhour % 3 == 0`, `return fhour // 3 - 1`.
Python `%` on a positive modulus is Euclidean `Int.emod`; Python `//` is floor
division `Int.fdiv`. -/
def fhour_to_message_num (fhour : Int) : Except PyErr Int :=
  if fhour = 0 then .error .assertionError
  else if ¬ Int.emod fhour 3 = 0 then .error .assertionError
  else .ok (Int.fdiv fhour 3 - 1)

/-! ## int64 little-endian bytes and base64 (numpy scalar + `base64.b64encode`) -/

/-- The `width`-byte little-endian two's-complement bytes of an integer. -/
def toLEBytes (width : Nat) (v : Int) : List Nat :=
  (List.range width).map (fun i => ((Int.emod v (2 ^ (8 * width))).toNat / 2 ^ (8 * i)) % 256)

/-- The standard base64 alphabet. -/
def b64Alphabet : List Char :=
  "ABCDEFGHIJKLMNOPQRSTUVWXYZabcdefghijklmnopqrstuvwxyz0123456789+/".toList

def b64CharOf (n : Nat) : Char := b64Alphabet.getD n 'A'

/-- `base64.b64encode` on a byte list (values `< 256`), with `=` padding. -/
def b64Encode : List Nat → List Char
  | [] => []
  | [a] => [b64CharOf (a / 4), b64CharOf (a % 4 * 16), '=', '=']
  | [a, b] => [b64CharOf (a / 4), b64CharOf (a % 4 * 16 + b / 16), b64CharOf (b % 16 * 4), '=']
  | a :: b :: c :: rest =>
    b64CharOf (a / 4) :: b64CharOf (a % 4 * 16 + b / 16) ::
      b64CharOf (b % 16 * 4 + c / 64) :: b64CharOf (c % 64) :: b64Encode rest

/-- `b"base64:" + base64.b64encode(x)` where `x` is an 8-byte numpy scalar
(`datetime64[s]` or `timedelta64[h]`) holding the int64 `v`, decoded to text by
`ujson.dumps(..., reject_bytes=False)`. -/
def b64OfInt64 (v : Int) : List Char := "base64:".toList ++ b64Encode (toLEBytes 8 v)

/-! ## Python dicts and JSON-like values

`data_to_replace` (the representative-JSON template) is a nested Python dict.
It is modelled as an insertion-ordered association list; assignment replaces
in place, as Python dict assignment does.  The `bytes` values the code stores
(`b"base64:" + ...`) are modelled as their decoded text, which is exactly how
`ujson.dumps(..., reject_bytes=False)` serializes them. -/

inductive Val where
  | obj : List (List Char × Val) → Val
  | arr : List Val → Val
  | str : List Char → Val
  | int : Int → Val

abbrev KV := List (List Char × Val)

/-- Python `d[k] = v` on a dict: replace in place, else append. -/
def kvSet : KV → List Char → Val → KV
  | [], k, v => [(k, v)]
  | (k', v') :: rest, k, v =>
    if k' = k then (k, v) :: rest else (k', v') :: kvSet rest k v

/-- Python `d[k]` lookup (as an `Option`). -/
def kvGet : KV → List Char → Option Val
  | [], _ => none
  | (k', v') :: rest, k => if k' = k then some v' else kvGet rest k

theorem kvGet_kvSet_self (m : KV) (k : List Char) (v : Val) :
    kvGet (kvSet m k v) k = some v := by
  induction m with
  | nil => simp [kvSet, kvGet]
  | cons p rest ih =>
    obtain ⟨k', v'⟩ := p
    by_cases h : k' = k
    · simp [kvSet, kvGet, h]
    · simp [kvSet, kvGet, h, ih]

theorem kvGet_kvSet_ne (m : KV) {k k' : List Char} (v : Val) (h : k ≠ k') :
    kvGet (kvSet m k v) k' = kvGet m k' := by
  induction m with
  | nil => simp [kvSet, kvGet, h]
  | cons p rest ih =>
    obtain ⟨k0, v0⟩ := p
    by_cases h0 : k0 = k
    · subst h0
      simp [kvSet, kvGet, h]
    · by_cases h1 : k0 = k'
      · simp [kvSet, kvGet, h0, h1, Ne.symm h]
      · simp [kvSet, kvGet, h0, h1, ih]

theorem kvSet_kvSet_self (m : KV) (k : List Char) (v w : Val) :
    kvSet (kvSet m k v) k w = kvSet m k w := by
  induction m with
  | nil => simp [kvSet]
  | cons p rest ih =>
    obtain ⟨k0, v0⟩ := p
    by_cases h0 : k0 = k
    · simp [kvSet, h0]
    · simp [kvSet, h0, ih]

/-- Setting two different keys commutes as long as at least one of them is
already present.  (Two fresh keys do not commute: they would append in
different orders.) -/
theorem kvSet_kvSet_comm (m : KV) {k k' : List Char} (v w : Val) (h : k ≠ k')
    (hk : (∃ u, kvGet m k = some u) ∨ ∃ u, kvGet m k' = some u) :
    kvSet (kvSet m k v) k' w = kvSet (kvSet m k' w) k v := by
  induction m with
  | nil =>
    rcases hk with ⟨u, hu⟩ | ⟨u, hu⟩ <;> simp [kvGet] at hu
  | cons p rest ih =>
    obtain ⟨k0, v0⟩ := p
    by_cases h0 : k0 = k
    · subst h0
      simp [kvSet, h, Ne.symm h]
    · by_cases h1 : k0 = k'
      · subst h1
        simp [kvSet, h0, Ne.symm h, h, h0]
      · have hk' : (∃ u, kvGet rest k = some u) ∨ ∃ u, kvGet rest k' = some u := by
          rcases hk with ⟨u, hu⟩ | ⟨u, hu⟩
          · left; simp [kvGet, h0] at hu; exact ⟨u, hu⟩
          · right; simp [kvGet, h1] at hu; exact ⟨u, hu⟩
        simp [kvSet, h0, h1, ih hk']

/-- Keys the fill step writes (kerchunk_zarr.py lines 210-220). -/
def refsK : List Char := "refs".toList
def templatesK : List Char := "templates".toList
def mslK : List Char := "msl/0.0".toList
def timeK : List Char := "time/0".toList
def validTimeK : List Char := "valid_time/0".toList
def stepK : List Char := "step/0".toList
def uK : List Char := "u".toList

/-- The inner dict `data["refs"]`, when present and a dict. -/
def getRefs (st : KV) : KV :=
  match kvGet st refsK with
  | some (.obj o) => o
  | _ => []

/-- `st` has a `"refs"` key bound to a dict (true of the bundled template). -/
def hasRefsObj (st : KV) : Prop := ∃ o, kvGet st refsK = some (Val.obj o)

/-- Python `data["refs"][k] = v`: raises `KeyError` if `"refs"` is absent and
`TypeError` if it is not a dict. -/
def setRefE (st : KV) (k : List Char) (v : Val) : Except PyErr KV :=
  match kvGet st refsK with
  | some (.obj o) => .ok (kvSet st refsK (.obj (kvSet o k v)))
  | some _ => .error .typeError
  | none => .error .keyError

/-- The five dict assignments of kerchunk_zarr.py lines 210-220, in source
order: `refs["msl/0.0"]`, top-level `"templates"`, `refs["time/0"]`,
`refs["valid_time/0"]`, `refs["step/0"]`. -/
def fillDocE (st : KV) (mr : Val) (url : List Char) (t vt sp : Int) :
    Except PyErr KV := do
  let s1 ← setRefE st mslK mr
  let s2 := kvSet s1 templatesK (.obj [(uK, .str url)])
  let s3 ← setRefE s2 timeK (.str (b64OfInt64 t))
  let s4 ← setRefE s3 validTimeK (.str (b64OfInt64 vt))
  setRefE s4 stepK (.str (b64OfInt64 sp))

/-- The four inner-dict writes of the fill step, in source order. -/
def inner4 (o : KV) (a b c d : Val) : KV :=
  kvSet (kvSet (kvSet (kvSet o mslK a) timeK b) validTimeK c) stepK d

/-- The value `fillDocE` produces when the template's `"refs"` entry is a
dict: the inner dict gets the four chunk entries, the top level gets the
`"templates"` binding. -/
def fillPure (st : KV) (mr : Val) (url : List Char) (t vt sp : Int) : KV :=
  kvSet
    (kvSet st refsK
      (.obj (inner4 (getRefs st) mr (.str (b64OfInt64 t)) (.str (b64OfInt64 vt))
        (.str (b64OfInt64 sp)))))
    templatesK (.obj [(uK, .str url)])

theorem mslK_ne_timeK : mslK ≠ timeK := by decide
theorem mslK_ne_validTimeK : mslK ≠ validTimeK := by decide
theorem mslK_ne_stepK : mslK ≠ stepK := by decide
theorem timeK_ne_validTimeK : timeK ≠ validTimeK := by decide
theorem timeK_ne_stepK : timeK ≠ stepK := by decide
theorem validTimeK_ne_stepK : validTimeK ≠ stepK := by decide
theorem refsK_ne_templatesK : refsK ≠ templatesK := by decide

theorem fillDocE_eq (st : KV) (mr : Val) (url : List Char) (t vt sp : Int)
    (h : hasRefsObj st) :
    fillDocE st mr url t vt sp = .ok (fillPure st mr url t vt sp) := by
  obtain ⟨o, ho⟩ := h
  have hgr : getRefs st = o := by simp [getRefs, ho]
  have h1 : kvGet (kvSet st refsK (Val.obj (kvSet o mslK mr))) refsK
      = some (Val.obj (kvSet o mslK mr)) := kvGet_kvSet_self ..
  have h2 : kvGet (kvSet (kvSet st refsK (Val.obj (kvSet o mslK mr))) templatesK
        (Val.obj [(uK, Val.str url)])) refsK = some (Val.obj (kvSet o mslK mr)) := by
    rw [kvGet_kvSet_ne _ _ (Ne.symm refsK_ne_templatesK), h1]
  simp only [fillDocE, setRefE, ho, h2, bind, Except.bind, kvGet_kvSet_self, kvSet_kvSet_self]
  rw [kvSet_kvSet_comm _ _ _ (Ne.symm refsK_ne_templatesK) (Or.inr ⟨_, h1⟩)]
  rw [kvSet_kvSet_self]
  simp [fillPure, inner4, hgr]

theorem kvGet_inner4_mslK (o : KV) (a b c d : Val) :
    kvGet (inner4 o a b c d) mslK = some a := by
  unfold inner4
  rw [kvGet_kvSet_ne _ _ (Ne.symm mslK_ne_stepK),
    kvGet_kvSet_ne _ _ (Ne.symm mslK_ne_validTimeK),
    kvGet_kvSet_ne _ _ (Ne.symm mslK_ne_timeK), kvGet_kvSet_self]

theorem inner4_set_msl (o : KV) (a b c d a' : Val) :
    kvSet (inner4 o a b c d) mslK a' = inner4 o a' b c d := by
  unfold inner4
  rw [kvSet_kvSet_comm _ _ _ (Ne.symm mslK_ne_stepK)
    (Or.inr ⟨a, by rw [kvGet_kvSet_ne _ _ (Ne.symm mslK_ne_validTimeK),
      kvGet_kvSet_ne _ _ (Ne.symm mslK_ne_timeK), kvGet_kvSet_self]⟩)]
  rw [kvSet_kvSet_comm _ _ _ (Ne.symm mslK_ne_validTimeK)
    (Or.inr ⟨a, by rw [kvGet_kvSet_ne _ _ (Ne.symm mslK_ne_timeK), kvGet_kvSet_self]⟩)]
  rw [kvSet_kvSet_comm _ _ _ (Ne.symm mslK_ne_timeK) (Or.inr ⟨a, kvGet_kvSet_self ..⟩)]
  rw [kvSet_kvSet_self]

theorem inner4_set_time (o : KV) (a b c d b' : Val) :
    kvSet (inner4 o a b c d) timeK b' = inner4 o a b' c d := by
  unfold inner4
  rw [kvSet_kvSet_comm _ _ _ (Ne.symm timeK_ne_stepK)
    (Or.inr ⟨b, by rw [kvGet_kvSet_ne _ _ (Ne.symm timeK_ne_validTimeK), kvGet_kvSet_self]⟩)]
  rw [kvSet_kvSet_comm _ _ _ (Ne.symm timeK_ne_validTimeK) (Or.inr ⟨b, kvGet_kvSet_self ..⟩)]
  rw [kvSet_kvSet_self]

theorem inner4_set_validTime (o : KV) (a b c d c' : Val) :
    kvSet (inner4 o a b c d) validTimeK c' = inner4 o a b c' d := by
  unfold inner4
  rw [kvSet_kvSet_comm _ _ _ (Ne.symm validTimeK_ne_stepK) (Or.inr ⟨c, kvGet_kvSet_self ..⟩)]
  rw [kvSet_kvSet_self]

theorem inner4_set_step (o : KV) (a b c d d' : Val) :
    kvSet (inner4 o a b c d) stepK d' = inner4 o a b c d' := by
  unfold inner4
  rw [kvSet_kvSet_self]

theorem inner4_inner4 (o : KV) (a b c d a' b' c' d' : Val) :
    inner4 (inner4 o a b c d) a' b' c' d' = inner4 o a' b' c' d' := by
  conv_lhs => rw [inner4]
  rw [inner4_set_msl, inner4_set_time, inner4_set_validTime, inner4_set_step]

theorem kvGet_fillPure_refsK (st : KV) (mr : Val) (url : List Char) (t vt sp : Int) :
    kvGet (fillPure st mr url t vt sp) refsK
      = some (Val.obj (inner4 (getRefs st) mr (.str (b64OfInt64 t))
          (.str (b64OfInt64 vt)) (.str (b64OfInt64 sp)))) := by
  unfold fillPure
  rw [kvGet_kvSet_ne _ _ (Ne.symm refsK_ne_templatesK), kvGet_kvSet_self]

theorem hasRefsObj_fillPure (st : KV) (mr : Val) (url : List Char) (t vt sp : Int) :
    hasRefsObj (fillPure st mr url t vt sp) :=
  ⟨inner4 (getRefs st) mr (.str (b64OfInt64 t)) (.str (b64OfInt64 vt))
      (.str (b64OfInt64 sp)),
    kvGet_fillPure_refsK st mr url t vt sp⟩

theorem getRefs_fillPure (st : KV) (mr : Val) (url : List Char) (t vt sp : Int) :
    getRefs (fillPure st mr url t vt sp)
      = inner4 (getRefs st) mr (.str (b64OfInt64 t)) (.str (b64OfInt64 vt))
          (.str (b64OfInt64 sp)) := by
  unfold getRefs
  rw [kvGet_fillPure_refsK]
  rfl

/-- Filling an already-filled document overwrites every entry the fill step
touches, so the result is as if the second fill had acted on the pristine
document. -/
theorem fillPure_fillPure (st : KV) (h : hasRefsObj st) (mr : Val) (url : List Char)
    (t vt sp : Int) (mr' : Val) (url' : List Char) (t' vt' sp' : Int) :
    fillPure (fillPure st mr url t vt sp) mr' url' t' vt' sp'
      = fillPure st mr' url' t' vt' sp' := by
  obtain ⟨o, ho⟩ := h
  conv_lhs => rw [fillPure]
  rw [getRefs_fillPure, inner4_inner4]
  conv_lhs => rw [fillPure]
  rw [kvSet_kvSet_comm _ _ _ (Ne.symm refsK_ne_templatesK)
    (Or.inr ⟨_, kvGet_kvSet_self st refsK _⟩)]
  rw [kvSet_kvSet_self, kvSet_kvSet_self]
  rw [fillPure]

/-! ## Constructor member handling and URI enumeration -/

/-- The `members` constructor argument (kerchunk_zarr.py lines 71, 87-92):
`None`, a single string, or a list of strings. -/
inductive MembersArg where
  | noneArg
  | strArg (s : List Char)
  | listArg (l : List (List Char))

/-- kerchunk_zarr.py lines 87-92: `None` gets the default five members; a
string `s` is passed through `list(s)`, i.e. split into its characters. -/
def init_members : MembersArg → List (List Char)
  | .noneArg => ["c00".toList, "p01".toList, "p02".toList, "p03".toList, "p04".toList]
  | .strArg s => s.map (fun c => [c])
  | .listArg l => l

/-- kerchunk_zarr.py line 22. -/
def base_s3_reforecast : List Char :=
  "s3://noaa-gefs-retrospective/GEFSv12/reforecast/".toList

/-- `RetrospectivePull.generate_reforecast_uris` (kerchunk_zarr.py lines
116-146): the four successive comprehensions, with the `datecode` and member
tokens recovered positionally as `subpath.split('/')[6]` and
`subpath.split('/')[7]`. -/
def generate_reforecast_uris (glob_patterns members : List (List Char))
    (forecast_horizon var_name : List Char) : List (List Char) :=
  let reforecast_patterns :=
    (List.range' 2000 20).map
      (fun year => base_s3_reforecast ++ natToChars year ++ '/' :: natToChars year)
  let reforecast_patterns_w_days :=
    reforecast_patterns.flatMap
      (fun yp => glob_patterns.map (fun g => yp ++ g ++ "00/".toList))
  let reforecast_patterns_w_members_horizon :=
    reforecast_patterns_w_days.flatMap
      (fun dp => members.map (fun mem => dp ++ mem ++ '/' :: forecast_horizon ++ ['/']))
  reforecast_patterns_w_members_horizon.map
    (fun subpath =>
      subpath ++ var_name ++ '_' :: (pySplit '/' subpath).getD 6 []
        ++ '_' :: (pySplit '/' subpath).getD 7 [] ++ ".grib2.idx".toList)

/-! ## The fetch stage -/

/-- Trace model of `RetrospectivePull.work_coroutine` (kerchunk_zarr.py lines
148-161).  The two batched operations are represented by their outcomes: the
coroutine awaits the gathered info tasks first, then the data task, and only
then runs `await session.close()` — there is no `try/finally`.  The boolean
records whether `session.close()` was executed. -/
def work_coroutine {α β : Type} (catResult : Except PyErr α)
    (infoResult : Except PyErr β) : Except PyErr (α × β) × Bool :=
  match infoResult with
  | .error e => (.error e, false)
  | .ok info =>
    match catResult with
    | .error e => (.error e, false)
    | .ok out => (.ok (out, info), true)

/-! ## `generate_json_files` -/

/-- Python list indexing `l[i]` for nonnegative `i`: `IndexError` when out of
range. -/
def getE {α : Type} (l : List α) (i : Nat) : Except PyErr α :=
  match l[i]? with
  | some a => .ok a
  | none => .error .indexError

/-- The `"{{u}}"` placeholder token (kerchunk_zarr.py lines 197, 200, 206). -/
def placeholderU : List Char :=
  [Char.ofNat 123, Char.ofNat 123, 'u', Char.ofNat 125, Char.ofNat 125]

/-- kerchunk_zarr.py lines 183-185: `date_string = file_location.split("_")[2]`
is sliced as `[:4]`, `[4:6]`, `[6:8]`, `[8:]` and parsed by
`np.datetime64(formatted_date, "s")`, whose value is the seconds since the
Unix epoch of that year-month-day-hour. -/
def parseDatecode (ds : List Char) : Except PyErr Int := do
  let y ← parseNatE (ds.take 4)
  let mo ← parseNatE ((ds.drop 4).take 2)
  let d ← parseNatE ((ds.drop 6).take 2)
  let h ← parseNatE (ds.drop 8)
  Except.ok (daysFromCivil (y : Int) mo d * 86400 + (h : Int) * 3600)

/-- Everything the matching loop iteration computes from the fetched data
alone, before the five dict assignments. -/
structure FillVals where
  mr : Val
  url : List Char
  tSec : Int
  vtSec : Int
  stepH : Int
  name : List Char

/-- One written output document. -/
structure WrittenFile where
  name : List Char
  doc : KV

/-- kerchunk_zarr.py lines 186-224, the loop body at index `i` (taken when
`i == self.message_num`): re-split line `i`, take colon-field 5, keep its
digits and parse them as the lead time in hours; then the three-way byte-range
branch (`i == 0` first, then `i == len(message_nums) - 1`, else the middle
case); the concrete URL `f"s3://{file_location[:-4]}"` and the output name
`f"{file_location.split('/')[7].split('.')[0]}_{i:02}.json"`.  The name and
URL are pure and are hoisted before the dict writes; this does not change any
per-file outcome or any written document. -/
def loopBodyCore (idxText : List Char) (msgNums : List (List Char)) (fsize : Int)
    (dateSec : Int) (floc : List Char) (i : Nat) : Except PyErr FillVals := do
  let line ← getE (pySplit '\n' idxText) i
  let step_str ← getE (pySplit ':' line) 5
  let step ← parseNatE (step_str.filter Char.isDigit)
  let mr ←
    if i = 0 then do
      let o1 ← getE msgNums 1
      let n1 ← parseNatE o1
      Except.ok (Val.arr [Val.str placeholderU, Val.int 0, Val.int (n1 : Int)])
    else if i = msgNums.length - 1 then do
      let oi ← getE msgNums i
      let ni ← parseNatE oi
      Except.ok (Val.arr [Val.str placeholderU, Val.int (ni : Int),
        Val.int (fsize - (ni : Int))])
    else do
      let oi ← getE msgNums i
      let ni ← parseNatE oi
      let o1 ← getE msgNums (i + 1)
      let n1 ← parseNatE o1
      Except.ok (Val.arr [Val.str placeholderU, Val.int (ni : Int),
        Val.int ((n1 : Int) - (ni : Int))])
  let url := "s3://".toList ++ floc.take (floc.length - 4)
  let nm ← getE (pySplit '/' floc) 7
  let base ← getE (pySplit '.' nm) 0
  Except.ok ⟨mr, url, dateSec, dateSec + (step : Int) * 3600, (step : Int),
    base ++ '_' :: pad2 i ++ ".json".toList⟩

/-- The five dict assignments (lines 210-220) followed by the snapshot write
(`generate_file`, lines 169-172, 221-224): the document value serialized at
write time is the dict's state right after the assignments. -/
def runFill (st : KV) (c : FillVals) : Except PyErr (KV × WrittenFile) := do
  let d ← fillDocE st c.mr c.url c.tSec c.vtSec c.stepH
  Except.ok (d, ⟨c.name, d⟩)

/-- kerchunk_zarr.py lines 186-224: `for i, n in enumerate(message_nums)`,
acting only when `i == self.message_num`, threading the shared mutable
template dict. -/
def loopIdx (msgNum : Int) (idxText : List Char) (msgNums : List (List Char))
    (fsize dateSec : Int) (floc : List Char) :
    List Nat → KV → Except PyErr (KV × List WrittenFile)
  | [], st => .ok (st, [])
  | i :: rest, st =>
    if (i : Int) = msgNum then do
      let c ← loopBodyCore idxText msgNums fsize dateSec floc i
      let (st1, w) ← runFill st c
      let (st2, ws) ← loopIdx msgNum idxText msgNums fsize dateSec floc rest st1
      Except.ok (st2, w :: ws)
    else loopIdx msgNum idxText msgNums fsize dateSec floc rest st

/-- kerchunk_zarr.py lines 177-224, the per-file work: split the index bytes
into lines (discarding the final empty piece), take colon-field 1 of every
line as the message offsets, parse the datecode out of the file location, and
run the enumerate loop. -/
def processFile (msgNum : Int) (idxBytes : List Char) (fsize : Int)
    (floc : List Char) (st : KV) : Except PyErr (KV × List WrittenFile) := do
  let msgNums ← ((pySplit '\n' idxBytes).dropLast).mapM
    (fun n => getE (pySplit ':' n) 1)
  let ds ← getE (pySplit '_' floc) 2
  let dateSec ← parseDatecode ds
  loopIdx msgNum idxBytes msgNums fsize dateSec floc (List.range msgNums.length) st

/-- One fetched file: its location key (protocol-stripped, as the fetch
returns it), index bytes, and archival byte size. -/
structure FileInput where
  floc : List Char
  idxBytes : List Char
  fsize : Int

/-- kerchunk_zarr.py lines 174-224: the outer loop over fetched files,
threading the one mutable `data_to_replace` dict loaded at line 176. -/
def genLoop (msgNum : Int) : List FileInput → KV → Except PyErr (KV × List WrittenFile)
  | [], st => .ok (st, [])
  | f :: rest, st => do
    let (st1, ws) ← processFile msgNum f.idxBytes f.fsize f.floc st
    let (st2, ws') ← genLoop msgNum rest st1
    Except.ok (st2, ws ++ ws')

/-- `RetrospectivePull.generate_json_files`: the written documents, in order. -/
def generate_json_files (msgNum : Int) (files : List FileInput) (template : KV) :
    Except PyErr (List WrittenFile) :=
  (genLoop msgNum files template).map (fun p => p.2)

/-! ## Claims C3, C6, C4, C9 -/

/-- C3, counterexample: the claim says every fhour that is not positive fails
with a precondition error, but `fhour = -3` passes both asserts (Python `%`
with a positive modulus is Euclidean, so `-3 % 3 == 0`) and the function
returns `-3 // 3 - 1 = -2`. -/
theorem claim_C3_counterexample :
    fhour_to_message_num (-3) = .ok (-2) := rfl

/-- C3 (amended): `fhour_to_message_num` is a pure function of the forecast
hour; for every nonzero multiple of 3 — positive or negative — it returns
`fhour // 3 - 1` (floor division), so a positive multiple of 3 maps to
`fhour / 3 - 1` (3 to 0, 6 to 1, 9 to 2, 12 to 3); it fails with a
precondition (assertion) error exactly when `fhour = 0` or `fhour` is not a
multiple of 3 (such as 4); a negative multiple of 3 is accepted, not
rejected. -/
theorem claim_C3_amended (fhour : Int) :
    (fhour ≠ 0 → Int.emod fhour 3 = 0 →
      fhour_to_message_num fhour = .ok (Int.fdiv fhour 3 - 1))
    ∧ (fhour = 0 → fhour_to_message_num fhour = .error .assertionError)
    ∧ (Int.emod fhour 3 ≠ 0 →
      fhour_to_message_num fhour = .error .assertionError) := by
  refine ⟨fun h0 h3 => ?_, fun h0 => ?_, fun h3 => ?_⟩
  · simp [fhour_to_message_num, h0, h3]
  · simp [fhour_to_message_num, h0]
  · have h0 : fhour ≠ 0 := by
      intro h
      exact h3 (by rw [h]; decide)
    simp [fhour_to_message_num, h0, h3]

/-- C3, witness: the valid mapping at `fhour = 3` and the precondition
failures at `0` and `4`, obtained from the amended theorem. -/
theorem claim_C3_witness :
    fhour_to_message_num 3 = .ok 0
    ∧ fhour_to_message_num 0 = .error .assertionError
    ∧ fhour_to_message_num 4 = .error .assertionError :=
  ⟨(claim_C3_amended 3).1 (by decide) (by decide),
    (claim_C3_amended 0).2.1 rfl,
    (claim_C3_amended 4).2.2 (by decide)⟩

/-- C6, counterexample: the claim says the session acquired by
`work_coroutine` is closed on every outcome, but the coroutine has no
`try/finally`: when the gathered info tasks raise, `await session.close()` is
never executed. -/
theorem claim_C6_counterexample :
    (work_coroutine (Except.ok (0 : Nat))
      (Except.error PyErr.osError : Except PyErr Nat)).2 = false := rfl

/-- C6 (amended): `work_coroutine` closes the session exactly on the success
path — the close runs when both the batched content fetch and the batched
size queries return, and is skipped whenever either of them raises. -/
theorem claim_C6_amended {α β : Type} (catResult : Except PyErr α)
    (infoResult : Except PyErr β) :
    (work_coroutine catResult infoResult).2 = true ↔
      (∃ a, catResult = .ok a) ∧ (∃ b, infoResult = .ok b) := by
  cases infoResult with
  | error e => simp [work_coroutine]
  | ok b =>
    cases catResult with
    | error e => simp [work_coroutine]
    | ok a => simp [work_coroutine]

/-- C4: a pattern is in the output of `date_to_glob_pattern` exactly when it
is the month-day `"MMDD"` pattern of some calendar day in the inclusive
window `[date - W, date + W]`; wrapping across year and leap-day boundaries
is inherited from the day-count calendar conversion. -/
theorem claim_C4_date_window (p : List Char) (date : Int) (W : Nat) :
    p ∈ date_to_glob_pattern date W ↔
      ∃ z : Int, date - W ≤ z ∧ z ≤ date + W ∧ p = monthDayPattern z := by
  simp only [date_to_glob_pattern]
  constructor
  · intro hp
    rw [List.mem_map] at hp
    obtain ⟨md, hmd, hfmt⟩ := hp
    rw [List.mem_dedup, List.mem_map] at hmd
    obtain ⟨z, hz, hmd2⟩ := hmd
    rw [List.mem_map] at hz
    obtain ⟨k, hk, hzk⟩ := hz
    rw [List.mem_range] at hk
    refine ⟨z, by omega, by omega, ?_⟩
    rw [← hfmt, ← hmd2]
    rfl
  · rintro ⟨z, h1, h2, rfl⟩
    refine List.mem_map.mpr ⟨(monthOfDay z, dayOfDay z), ?_, rfl⟩
    rw [List.mem_dedup]
    refine List.mem_map.mpr ⟨z, ?_, rfl⟩
    refine List.mem_map.mpr ⟨(z - (date - W)).toNat, List.mem_range.mpr (by omega), by omega⟩

theorem uris_length (gp members : List (List Char)) (fh v : List Char) :
    (generate_reforecast_uris gp members fh v).length
      = 20 * (gp.length * members.length) := by
  simp only [generate_reforecast_uris, List.length_map, List.length_flatMap,
    List.map_map, Function.comp_def, List.map_const', List.sum_replicate, smul_eq_mul]
  simp
  ring

/-- C9: a plain-string `members` argument such as `"c00"` is converted by
`list(members)` into its individual characters, so URI enumeration runs once
per character: three members per year-pattern combination, not one. -/
theorem claim_C9_members_chars :
    init_members (.strArg "c00".toList) = [['c'], ['0'], ['0']]
    ∧ ∀ (gp : List (List Char)) (fh v : List Char),
        (generate_reforecast_uris gp (init_members (.strArg "c00".toList)) fh v).length
          = 20 * (gp.length * 3) := by
  refine ⟨rfl, fun gp fh v => ?_⟩
  rw [uris_length]
  rfl

/-! ## Synthetic index files

The spec's §8.3 properties are stated over a synthetic index: one line per
message in the archive's `.idx` format
(`ordinal:offset:d=datecode:PARAM:level:step descriptor:`), with the byte
offset in colon-field 1 and the step descriptor in colon-field 5. -/

/-- One synthetic index record: its byte offset and its lead time in hours. -/
structure IdxRecord where
  offset : Nat
  step : Nat

/-- One synthetic index line, in the archive's `.idx` line format. -/
def idxLine (ordinal : Nat) (r : IdxRecord) : List Char :=
  natToChars ordinal ++ ':' :: (natToChars r.offset ++ ':' :: ("d=2000011200".toList
    ++ ':' :: ("PRES".toList ++ ':' :: ("mean sea level".toList
    ++ ':' :: (natToChars r.step ++ " hour fcst".toList ++ [':'])))))

/-- A synthetic index file: the records' lines, 1-based ordinals, each line
terminated by a newline. -/
def mkIndex (recs : List IdxRecord) : List Char :=
  ((recs.enum.map (fun p => idxLine (p.1 + 1) p.2)).map (fun l => l ++ ['\n'])).flatten

/-- A representative file-location key, as the fetch stage returns it
(protocol-stripped). -/
def flocEx : List Char :=
  ("noaa-gefs-retrospective/GEFSv12/reforecast/2000/2000011200/c00/" ++
    "Days:1-10/pres_msl_2000011200_c00.grib2.idx").toList

/-- Seconds since the epoch of 2000-01-12T00, the datecode in `flocEx`. -/
def dateSecEx : Int := 947635200

/-- The concrete remote URL the fill step binds for `flocEx`. -/
def urlEx : List Char :=
  ("s3://noaa-gefs-retrospective/GEFSv12/reforecast/2000/2000011200/c00/" ++
    "Days:1-10/pres_msl_2000011200_c00.grib2").toList

/-- The output document name for `flocEx` at message ordinal `i`. -/
def nameEx (i : Nat) : List Char :=
  "pres_msl_2000011200_c00".toList ++ '_' :: pad2 i ++ ".json".toList

theorem isDigit_ne {c x : Char} (h : c.isDigit = true) (hx : x.isDigit = false) :
    c ≠ x := by
  intro he
  subst he
  rw [h] at hx
  cases hx

theorem not_mem_natToChars_of_not_digit {x : Char} (hx : x.isDigit = false)
    (n : Nat) : x ∉ natToChars n :=
  fun hm => (isDigit_ne (natToChars_digits n x hm) hx) rfl

theorem colon_not_mem_step_field (s : Nat) :
    ':' ∉ natToChars s ++ " hour fcst".toList := by
  rw [List.mem_append]
  rintro (h | h)
  · exact not_mem_natToChars_of_not_digit (by decide) s h
  · revert h
    decide

/-- The colon-split of a synthetic index line. -/
theorem pySplit_colon_idxLine (o : Nat) (r : IdxRecord) :
    pySplit ':' (idxLine o r) =
      [natToChars o, natToChars r.offset, "d=2000011200".toList, "PRES".toList,
        "mean sea level".toList, natToChars r.step ++ " hour fcst".toList, []] := by
  unfold idxLine
  rw [pySplit_append _ (not_mem_natToChars_of_not_digit (by decide) o)]
  rw [pySplit_append _ (not_mem_natToChars_of_not_digit (by decide) r.offset)]
  rw [pySplit_append _ (by decide)]
  rw [pySplit_append _ (by decide)]
  rw [pySplit_append _ (by decide)]
  rw [show natToChars r.step ++ " hour fcst".toList ++ [':']
      = (natToChars r.step ++ " hour fcst".toList) ++ ':' :: [] from by simp]
  rw [pySplit_append _ (colon_not_mem_step_field r.step)]
  rfl

theorem newline_not_mem_idxLine (o : Nat) (r : IdxRecord) :
    '\n' ∉ idxLine o r := by
  intro h
  have hd : ('\n').isDigit = false := by decide
  simp only [idxLine, List.mem_append, List.mem_cons, List.mem_singleton,
    List.mem_nil_iff, or_false] at h
  rcases h with h | h
  · exact not_mem_natToChars_of_not_digit hd o h
  rcases h with h | h
  · exact absurd h (by decide)
  rcases h with h | h
  · exact not_mem_natToChars_of_not_digit hd r.offset h
  rcases h with h | h
  · exact absurd h (by decide)
  rcases h with h | h
  · exact absurd h (by decide)
  rcases h with h | h
  · exact absurd h (by decide)
  rcases h with h | h
  · exact absurd h (by decide)
  rcases h with h | h
  · exact absurd h (by decide)
  rcases h with h | h
  · exact absurd h (by decide)
  rcases h with h | (h | h) | h
  · exact absurd h (by decide)
  · exact not_mem_natToChars_of_not_digit hd r.step h
  · exact absurd h (by decide)
  · exact absurd h (by decide)

theorem pySplit_joinlines (sep : Char) (lines : List (List Char))
    (h : ∀ l ∈ lines, sep ∉ l) :
    pySplit sep ((lines.map (fun l => l ++ [sep])).flatten) = lines ++ [[]] := by
  induction lines with
  | nil => simp [pySplit]
  | cons l ls ih =>
    simp only [List.map_cons, List.flatten_cons]
    rw [show (l ++ [sep]) ++ (ls.map (fun l => l ++ [sep])).flatten
        = l ++ sep :: (ls.map (fun l => l ++ [sep])).flatten from by simp]
    rw [pySplit_append _ (h l (List.mem_cons_self l ls))]
    rw [ih (fun l' hl' => h l' (List.mem_cons_of_mem l hl'))]
    rfl

/-- The newline split of a synthetic index: one piece per record, plus the
final empty piece produced by the trailing newline. -/
theorem pySplit_newline_mkIndex (recs : List IdxRecord) :
    pySplit '\n' (mkIndex recs)
      = (recs.enum.map (fun p => idxLine (p.1 + 1) p.2)) ++ [[]] := by
  unfold mkIndex
  apply pySplit_joinlines
  intro l hl
  rw [List.mem_map] at hl
  obtain ⟨p, _, rfl⟩ := hl
  exact newline_not_mem_idxLine (p.1 + 1) p.2

/-! ## Evaluating `processFile` on a synthetic index -/

theorem mapM_field1_enumFrom (recs : List IdxRecord) : ∀ n : Nat,
    List.mapM (fun l => getE (pySplit ':' l) 1)
      ((List.enumFrom n recs).map (fun p => idxLine (p.1 + 1) p.2))
      = Except.ok (recs.map (fun r => natToChars r.offset)) := by
  induction recs with
  | nil => intro n; rfl
  | cons r rs ih =>
    intro n
    simp only [List.enumFrom, List.map_cons, List.mapM_cons, pySplit_colon_idxLine,
      ih (n + 1)]
    rfl

theorem floc_field2 : getE (pySplit '_' flocEx) 2 = Except.ok "2000011200".toList := rfl

theorem floc_datecode : parseDatecode "2000011200".toList = Except.ok dateSecEx := rfl

/-- `processFile` on a synthetic index reduces to the enumerate loop over the
record offsets, with the datecode of `flocEx` already resolved. -/
theorem processFile_mkIndex (i : Int) (recs : List IdxRecord) (S : Int) (tmpl : KV) :
    processFile i (mkIndex recs) S flocEx tmpl
      = loopIdx i (mkIndex recs) (recs.map (fun r => natToChars r.offset)) S dateSecEx
          flocEx (List.range recs.length) tmpl := by
  unfold processFile
  rw [pySplit_newline_mkIndex, List.dropLast_concat]
  rw [show recs.enum = List.enumFrom 0 recs from rfl, mapM_field1_enumFrom recs 0]
  simp only [bind, Except.bind, floc_field2, floc_datecode, List.length_map]

theorem loopIdx_no_match (msgNum : Int) (idxText : List Char)
    (msgNums : List (List Char)) (fsize dateSec : Int) (floc : List Char) :
    ∀ (l : List Nat) (st : KV), (∀ j ∈ l, (j : Int) ≠ msgNum) →
      loopIdx msgNum idxText msgNums fsize dateSec floc l st = .ok (st, []) := by
  intro l
  induction l with
  | nil => intro st h; rfl
  | cons j js ih =>
    intro st h
    simp only [loopIdx]
    rw [if_neg (h j (List.mem_cons_self j js))]
    exact ih st (fun j' hj' => h j' (List.mem_cons_of_mem j hj'))

theorem loopIdx_skip_front (msgNum : Int) (idxText : List Char)
    (msgNums : List (List Char)) (fsize dateSec : Int) (floc : List Char)
    (l₁ l₂ : List Nat) (st : KV) (h : ∀ j ∈ l₁, (j : Int) ≠ msgNum) :
    loopIdx msgNum idxText msgNums fsize dateSec floc (l₁ ++ l₂) st
      = loopIdx msgNum idxText msgNums fsize dateSec floc l₂ st := by
  induction l₁ with
  | nil => rfl
  | cons j js ih =>
    simp only [List.cons_append, loopIdx]
    rw [if_neg (h j (List.mem_cons_self j js))]
    exact ih (fun j' hj' => h j' (List.mem_cons_of_mem j hj'))

/-- When the target ordinal `i` is within range, the enumerate loop fires
exactly once, at index `i`. -/
theorem loopIdx_range_single (msgNum : Int) (i N : Nat) (him : msgNum = (i : Int))
    (hi : i < N) (idxText : List Char) (msgNums : List (List Char))
    (fsize dateSec : Int) (floc : List Char) (st : KV) :
    loopIdx msgNum idxText msgNums fsize dateSec floc (List.range N) st
      = (do
          let c ← loopBodyCore idxText msgNums fsize dateSec floc i
          let p ← runFill st c
          Except.ok (p.1, [p.2])) := by
  subst him
  rw [List.range_eq_range']
  rw [show N = (N - i) + i from by omega, ← List.range'_append]
  rw [loopIdx_skip_front _ _ _ _ _ _ _ _ _ (by
    intro j hj
    rw [List.mem_range'] at hj
    obtain ⟨i', hi', rfl⟩ := hj
    simp only [Nat.zero_add, Nat.one_mul]
    intro hcast
    omega)]
  rw [show N - i = (N - i - 1) + 1 from by omega]
  rw [List.range'_succ]
  simp only [loopIdx, Nat.zero_add, Nat.one_mul]
  rw [if_pos trivial]
  cases hc : loopBodyCore idxText msgNums fsize dateSec floc i with
  | error e => simp [bind, Except.bind, hc]
  | ok c =>
    cases hr : runFill st c with
    | error e => simp [bind, Except.bind, hc, hr]
    | ok p =>
      simp only [bind, Except.bind, hc, hr]
      rw [loopIdx_no_match _ _ _ _ _ _ (List.range' (i + 1) (N - i - 1)) p.1 (by
        intro j hj
        rw [List.mem_range'] at hj
        obtain ⟨i', hi', rfl⟩ := hj
        simp only [Nat.one_mul]
        intro hcast
        omega)]

theorem getE_map_offsets (recs : List IdxRecord) (j : Nat) (hj : j < recs.length) :
    getE (recs.map (fun r => natToChars r.offset)) j
      = Except.ok (natToChars ((recs.getD j ⟨0, 0⟩).offset)) := by
  unfold getE
  rw [List.getElem?_map, List.getElem?_eq_getElem hj]
  rw [List.getD_eq_getElem recs ⟨0, 0⟩ hj]
  rfl

theorem getE_line_mkIndex (recs : List IdxRecord) (i : Nat) (hi : i < recs.length) :
    getE (pySplit '\n' (mkIndex recs)) i
      = Except.ok (idxLine (i + 1) (recs.getD i ⟨0, 0⟩)) := by
  rw [pySplit_newline_mkIndex]
  unfold getE
  rw [List.getElem?_append, if_pos (by simpa using hi)]
  rw [show recs.enum = List.enumFrom 0 recs from rfl]
  rw [List.getElem?_map, List.getElem?_enumFrom, List.getElem?_eq_getElem hi]
  rw [List.getD_eq_getElem recs ⟨0, 0⟩ hi]
  simp

theorem step_parse (s : Nat) :
    parseNatE ((natToChars s ++ " hour fcst".toList).filter Char.isDigit)
      = Except.ok s := by
  rw [List.filter_append]
  rw [List.filter_eq_self.mpr (fun a ha => natToChars_digits s a ha)]
  rw [show " hour fcst".toList.filter Char.isDigit = [] from rfl]
  rw [List.append_nil]
  exact parseNatE_natToChars s

theorem getE_step_field (i : Nat) (r : IdxRecord) :
    getE (pySplit ':' (idxLine (i + 1) r)) 5
      = Except.ok (natToChars r.step ++ " hour fcst".toList) := by
  rw [pySplit_colon_idxLine]
  rfl

/-- The target document that the fill step produces for `flocEx` at ordinal
`i` with byte-range value `mr` and lead time `stepH` hours. -/
def expectedDoc (tmpl : KV) (mr : Val) (stepH : Int) : KV :=
  fillPure tmpl mr urlEx dateSecEx (dateSecEx + stepH * 3600) stepH

theorem loopBodyCore_first (recs : List IdxRecord) (S : Int) (h2 : 2 ≤ recs.length) :
    loopBodyCore (mkIndex recs) (recs.map (fun r => natToChars r.offset)) S dateSecEx
        flocEx 0
      = Except.ok ⟨Val.arr [.str placeholderU, .int 0,
            .int ((recs.getD 1 ⟨0, 0⟩).offset : Int)],
          urlEx, dateSecEx, dateSecEx + ((recs.getD 0 ⟨0, 0⟩).step : Int) * 3600,
          ((recs.getD 0 ⟨0, 0⟩).step : Int), nameEx 0⟩ := by
  unfold loopBodyCore
  rw [getE_line_mkIndex recs 0 (by omega)]
  simp only [bind, Except.bind]
  rw [getE_step_field 0 (recs.getD 0 ⟨0, 0⟩)]
  simp only [bind, Except.bind]
  rw [step_parse]
  simp only [bind, Except.bind]
  rw [if_pos trivial]
  rw [getE_map_offsets recs 1 (by omega)]
  simp only [bind, Except.bind]
  rw [parseNatE_natToChars]
  simp only [bind, Except.bind]
  rfl

theorem loopBodyCore_last (recs : List IdxRecord) (S : Int) (h2 : 2 ≤ recs.length) :
    loopBodyCore (mkIndex recs) (recs.map (fun r => natToChars r.offset)) S dateSecEx
        flocEx (recs.length - 1)
      = Except.ok ⟨Val.arr [.str placeholderU,
            .int ((recs.getD (recs.length - 1) ⟨0, 0⟩).offset : Int),
            .int (S - ((recs.getD (recs.length - 1) ⟨0, 0⟩).offset : Int))],
          urlEx, dateSecEx,
          dateSecEx + ((recs.getD (recs.length - 1) ⟨0, 0⟩).step : Int) * 3600,
          ((recs.getD (recs.length - 1) ⟨0, 0⟩).step : Int),
          nameEx (recs.length - 1)⟩ := by
  unfold loopBodyCore
  rw [getE_line_mkIndex recs (recs.length - 1) (by omega)]
  simp only [bind, Except.bind]
  rw [getE_step_field (recs.length - 1) (recs.getD (recs.length - 1) ⟨0, 0⟩)]
  simp only [bind, Except.bind]
  rw [step_parse]
  simp only [bind, Except.bind]
  rw [if_neg (by omega)]
  rw [if_pos (by simp only [List.length_map])]
  rw [getE_map_offsets recs (recs.length - 1) (by omega)]
  simp only [bind, Except.bind]
  rw [parseNatE_natToChars]
  simp only [bind, Except.bind]
  rfl

theorem loopBodyCore_mid (recs : List IdxRecord) (S : Int) (i : Nat) (h1 : 0 < i)
    (h3 : i + 1 < recs.length) :
    loopBodyCore (mkIndex recs) (recs.map (fun r => natToChars r.offset)) S dateSecEx
        flocEx i
      = Except.ok ⟨Val.arr [.str placeholderU,
            .int ((recs.getD i ⟨0, 0⟩).offset : Int),
            .int (((recs.getD (i + 1) ⟨0, 0⟩).offset : Int)
              - ((recs.getD i ⟨0, 0⟩).offset : Int))],
          urlEx, dateSecEx,
          dateSecEx + ((recs.getD i ⟨0, 0⟩).step : Int) * 3600,
          ((recs.getD i ⟨0, 0⟩).step : Int), nameEx i⟩ := by
  unfold loopBodyCore
  rw [getE_line_mkIndex recs i (by omega)]
  simp only [bind, Except.bind]
  rw [getE_step_field i (recs.getD i ⟨0, 0⟩)]
  simp only [bind, Except.bind]
  rw [step_parse]
  simp only [bind, Except.bind]
  rw [if_neg (by omega)]
  rw [if_neg (by simp only [List.length_map]; omega)]
  rw [getE_map_offsets recs i (by omega)]
  simp only [bind, Except.bind]
  rw [parseNatE_natToChars]
  simp only [bind, Except.bind]
  rw [getE_map_offsets recs (i + 1) (by omega)]
  simp only [bind, Except.bind]
  rw [parseNatE_natToChars]
  simp only [bind, Except.bind]
  rfl

/-- A successful single-match run of `processFile`: the loop fires once, the
shared dict is filled, and one snapshot is written. -/
theorem processFile_single (msgNum : Int) (i : Nat) (him : msgNum = (i : Int))
    (recs : List IdxRecord) (S : Int) (tmpl : KV) (hi : i < recs.length)
    (htmpl : hasRefsObj tmpl) (c : FillVals)
    (hc : loopBodyCore (mkIndex recs) (recs.map (fun r => natToChars r.offset)) S
        dateSecEx flocEx i = .ok c) :
    processFile msgNum (mkIndex recs) S flocEx tmpl
      = .ok (fillPure tmpl c.mr c.url c.tSec c.vtSec c.stepH,
          [⟨c.name, fillPure tmpl c.mr c.url c.tSec c.vtSec c.stepH⟩]) := by
  subst him
  rw [processFile_mkIndex, loopIdx_range_single _ i recs.length rfl hi, hc]
  simp only [bind, Except.bind, runFill]
  rw [fillDocE_eq tmpl c.mr c.url c.tSec c.vtSec c.stepH htmpl]

/-- A small concrete template document with a `"refs"` dict, standing in for
the bundled representative JSON asset. -/
def tmplEx : KV :=
  [("version".toList, Val.int 1),
    (refsK, Val.obj [(mslK, Val.arr [Val.str "orig".toList, Val.int 7, Val.int 9])])]

theorem hasRefsObj_tmplEx : hasRefsObj tmplEx :=
  ⟨[(mslK, Val.arr [Val.str "orig".toList, Val.int 7, Val.int 9])], rfl⟩

/-- C1: on a synthetic index with `N` records and archival size `S`, the range
resolution inside `generate_json_files` writes, for target ordinal 0, the
payload descriptor with start 0 and length `offset[1]`; for target ordinal
`N-1`, start `offset[N-1]` and length `S - offset[N-1]`; and for every middle
ordinal `i`, start `offset[i]` and length `offset[i+1] - offset[i]` — each as
the `msl/0.0` entry of the one document written for the file. -/
theorem claim_C1_range_resolution (recs : List IdxRecord) (S : Int) (tmpl : KV)
    (htmpl : hasRefsObj tmpl) :
    (2 ≤ recs.length →
      processFile 0 (mkIndex recs) S flocEx tmpl
        = .ok (expectedDoc tmpl (Val.arr [.str placeholderU, .int 0,
              .int ((recs.getD 1 ⟨0, 0⟩).offset : Int)])
              ((recs.getD 0 ⟨0, 0⟩).step : Int),
            [⟨nameEx 0,
              expectedDoc tmpl (Val.arr [.str placeholderU, .int 0,
                .int ((recs.getD 1 ⟨0, 0⟩).offset : Int)])
                ((recs.getD 0 ⟨0, 0⟩).step : Int)⟩]))
    ∧ (2 ≤ recs.length →
      processFile ((recs.length - 1 : Nat) : Int) (mkIndex recs) S flocEx tmpl
        = .ok (expectedDoc tmpl (Val.arr [.str placeholderU,
              .int ((recs.getD (recs.length - 1) ⟨0, 0⟩).offset : Int),
              .int (S - ((recs.getD (recs.length - 1) ⟨0, 0⟩).offset : Int))])
              ((recs.getD (recs.length - 1) ⟨0, 0⟩).step : Int),
            [⟨nameEx (recs.length - 1),
              expectedDoc tmpl (Val.arr [.str placeholderU,
                .int ((recs.getD (recs.length - 1) ⟨0, 0⟩).offset : Int),
                .int (S - ((recs.getD (recs.length - 1) ⟨0, 0⟩).offset : Int))])
                ((recs.getD (recs.length - 1) ⟨0, 0⟩).step : Int)⟩]))
    ∧ (∀ i : Nat, 0 < i → i + 1 < recs.length →
      processFile (i : Int) (mkIndex recs) S flocEx tmpl
        = .ok (expectedDoc tmpl (Val.arr [.str placeholderU,
              .int ((recs.getD i ⟨0, 0⟩).offset : Int),
              .int (((recs.getD (i + 1) ⟨0, 0⟩).offset : Int)
                - ((recs.getD i ⟨0, 0⟩).offset : Int))])
              ((recs.getD i ⟨0, 0⟩).step : Int),
            [⟨nameEx i,
              expectedDoc tmpl (Val.arr [.str placeholderU,
                .int ((recs.getD i ⟨0, 0⟩).offset : Int),
                .int (((recs.getD (i + 1) ⟨0, 0⟩).offset : Int)
                  - ((recs.getD i ⟨0, 0⟩).offset : Int))])
                ((recs.getD i ⟨0, 0⟩).step : Int)⟩])) := by
  refine ⟨fun h2 => ?_, fun h2 => ?_, fun i h1 h3 => ?_⟩
  · exact processFile_single 0 0 rfl recs S tmpl (by omega) htmpl _
      (loopBodyCore_first recs S h2)
  · exact processFile_single _ (recs.length - 1) rfl recs S tmpl (by omega) htmpl _
      (loopBodyCore_last recs S h2)
  · exact processFile_single _ i rfl recs S tmpl (by omega) htmpl _
      (loopBodyCore_mid recs S i h1 h3)

/-- C1, witness: the middle-ordinal case on a concrete three-record index
(offsets 0, 100, 250, size 400): ordinal 1 resolves to start 100, length 150. -/
theorem claim_C1_witness :
    processFile 1 (mkIndex [⟨0, 3⟩, ⟨100, 6⟩, ⟨250, 9⟩]) 400 flocEx tmplEx
      = .ok (expectedDoc tmplEx (Val.arr [.str placeholderU, .int 100, .int 150]) 6,
          [⟨nameEx 1,
            expectedDoc tmplEx
              (Val.arr [.str placeholderU, .int 100, .int 150]) 6⟩]) := by
  have h := (claim_C1_range_resolution [⟨0, 3⟩, ⟨100, 6⟩, ⟨250, 9⟩] 400 tmplEx
    hasRefsObj_tmplEx).2.2 1 (by decide) (by decide)
  exact h.trans (by rfl)

/-- C2, counterexample: a requested ordinal that is not in the index (ordinal
5 of a 2-record index) and an empty index are NOT errors: `processFile`
returns success with no outputs and no report — the file is silently
skipped. -/
theorem claim_C2_counterexample :
    processFile 5 (mkIndex [⟨0, 3⟩, ⟨100, 6⟩]) 400 flocEx tmplEx = .ok (tmplEx, [])
    ∧ processFile 5 [] 400 flocEx tmplEx = .ok (tmplEx, []) := ⟨rfl, rfl⟩

/-- C2 (amended): a message ordinal at or beyond the number of index records,
and likewise an empty index, produce neither an error nor a per-file report:
the enumerate condition never fires, the file yields zero outputs, the
template dict is untouched, and the run continues silently. -/
theorem claim_C2_amended (msgNum : Int) (recs : List IdxRecord) (S : Int) (tmpl : KV)
    (h : (recs.length : Int) ≤ msgNum) :
    processFile msgNum (mkIndex recs) S flocEx tmpl = .ok (tmpl, [])
    ∧ processFile msgNum [] S flocEx tmpl = .ok (tmpl, []) := by
  constructor
  · rw [processFile_mkIndex]
    apply loopIdx_no_match
    intro j hj
    rw [List.mem_range] at hj
    intro hc
    omega
  · rfl

/-- C2, witness: ordinal 7 against a three-record index is silently skipped. -/
theorem claim_C2_witness :
    processFile 7 (mkIndex [⟨0, 3⟩, ⟨100, 6⟩, ⟨250, 9⟩]) 400 flocEx tmplEx
        = .ok (tmplEx, [])
    ∧ processFile 7 [] 400 flocEx tmplEx = .ok (tmplEx, []) :=
  claim_C2_amended 7 [⟨0, 3⟩, ⟨100, 6⟩, ⟨250, 9⟩] 400 tmplEx (by decide)

/-- C10: on a single-record index the first-message branch wins (it is tested
before the last-message branch) and indexes `message_nums[1]`, which does not
exist: `processFile` fails with `IndexError` instead of returning start 0 and
length equal to the file size. -/
theorem claim_C10_single_record (r : IdxRecord) (S : Int) (tmpl : KV) :
    processFile 0 (mkIndex [r]) S flocEx tmpl = .error .indexError := by
  rw [processFile_mkIndex, show [r].length = 1 from rfl,
    loopIdx_range_single 0 0 1 rfl (by omega)]
  unfold loopBodyCore
  rw [getE_line_mkIndex [r] 0 (by simp)]
  simp only [bind, Except.bind]
  rw [getE_step_field 0 ([r].getD 0 ⟨0, 0⟩)]
  simp only [bind, Except.bind]
  rw [step_parse]
  simp only [bind, Except.bind]
  rw [if_pos trivial]
  rfl

/-! ## Claim C7: one shared mutable template dict vs. per-file copies -/

/-- The start offset stored in a document's `refs["msl/0.0"]` entry. -/
def probeStart (d : KV) : Option Int :=
  match kvGet (getRefs d) mslK with
  | some (Val.arr [_, Val.int s, _]) => some s
  | _ => none

/-- A concrete fetched file: `flocEx` with a two-record index and size 400. -/
def fileEx : FileInput := ⟨flocEx, mkIndex [⟨0, 3⟩, ⟨100, 6⟩], 400⟩

/-- C7, counterexample: the fill step does NOT operate on its own copy of the
template — `generate_json_files` loads `data_to_replace` once and patches it
in place, so the dict state a second file would see is the state left behind
by the first fill (payload start 0), not the pristine template (payload start
7). -/
theorem claim_C7_counterexample :
    probeStart tmplEx = some 7
    ∧ (genLoop 0 [fileEx] tmplEx).map (fun p => probeStart p.1) = .ok (some 0) :=
  ⟨rfl, rfl⟩

/-- Dict states reachable while the loop runs: the pristine template or some
filled version of it. -/
def Reach (tmpl st : KV) : Prop :=
  st = tmpl ∨ ∃ mr url t vt sp, st = fillPure tmpl mr url t vt sp

theorem reach_fillPure {tmpl st : KV} (hr : Reach tmpl st) (htmpl : hasRefsObj tmpl)
    (mr : Val) (url : List Char) (t vt sp : Int) :
    fillPure st mr url t vt sp = fillPure tmpl mr url t vt sp := by
  rcases hr with rfl | ⟨mr', url', t', vt', sp', rfl⟩
  · rfl
  · exact fillPure_fillPure tmpl htmpl mr' url' t' vt' sp' mr url t vt sp

theorem reach_hasRefsObj {tmpl st : KV} (hr : Reach tmpl st) (htmpl : hasRefsObj tmpl) :
    hasRefsObj st := by
  rcases hr with rfl | ⟨mr', url', t', vt', sp', rfl⟩
  · exact htmpl
  · exact hasRefsObj_fillPure tmpl mr' url' t' vt' sp'

theorem runFill_reach {tmpl st : KV} (hr : Reach tmpl st) (htmpl : hasRefsObj tmpl)
    (c : FillVals) :
    runFill st c
      = .ok (fillPure tmpl c.mr c.url c.tSec c.vtSec c.stepH,
          ⟨c.name, fillPure tmpl c.mr c.url c.tSec c.vtSec c.stepH⟩) := by
  unfold runFill
  rw [fillDocE_eq st c.mr c.url c.tSec c.vtSec c.stepH (reach_hasRefsObj hr htmpl)]
  rw [reach_fillPure hr htmpl]
  rfl

/-- The enumerate loop started anywhere in the reachable set produces the same
outputs as the loop started at the pristine template. -/
theorem loopIdx_invariance (msgNum : Int) (idxText : List Char)
    (msgNums : List (List Char)) (fsize dateSec : Int) (floc : List Char)
    (tmpl : KV) (htmpl : hasRefsObj tmpl) :
    ∀ (l : List Nat) (st : KV), Reach tmpl st → ∀ (st₂ : KV) (ws : List WrittenFile),
      loopIdx msgNum idxText msgNums fsize dateSec floc l st = .ok (st₂, ws) →
      Reach tmpl st₂
      ∧ ∃ st₃, loopIdx msgNum idxText msgNums fsize dateSec floc l tmpl
          = .ok (st₃, ws) := by
  intro l
  induction l with
  | nil =>
    intro st hr st₂ ws h
    simp only [loopIdx] at h
    obtain ⟨rfl, rfl⟩ : st = st₂ ∧ ws = [] := by
      cases h
      exact ⟨rfl, rfl⟩
    exact ⟨hr, tmpl, rfl⟩
  | cons i rest ih =>
    intro st hr st₂ ws h
    simp only [loopIdx] at h ⊢
    by_cases hm : (i : Int) = msgNum
    · rw [if_pos hm] at h ⊢
      cases hc : loopBodyCore idxText msgNums fsize dateSec floc i with
      | error e =>
        rw [hc] at h
        simp only [bind, Except.bind] at h
        exact absurd h (by simp)
      | ok c =>
        rw [hc] at h
        simp only [bind, Except.bind] at h
        simp only [bind, Except.bind]
        rw [runFill_reach hr htmpl c] at h
        rw [runFill_reach (Or.inl rfl) htmpl c]
        dsimp only at h ⊢
        have hr1 : Reach tmpl (fillPure tmpl c.mr c.url c.tSec c.vtSec c.stepH) :=
          Or.inr ⟨c.mr, c.url, c.tSec, c.vtSec, c.stepH, rfl⟩
        cases hrest : loopIdx msgNum idxText msgNums fsize dateSec floc rest
            (fillPure tmpl c.mr c.url c.tSec c.vtSec c.stepH) with
        | error e =>
          rw [hrest] at h
          simp only [] at h
          exact absurd h (by simp)
        | ok p =>
          rw [hrest] at h
          simp only [] at h
          obtain ⟨hre, st₃, h₃⟩ := ih _ hr1 p.1 p.2 (hrest.trans rfl)
          cases h
          exact ⟨hre, p.1, rfl⟩
    · rw [if_neg hm] at h ⊢
      exact ih st hr st₂ ws h

/-- The per-file work started anywhere in the reachable set produces the same
outputs as when started at the pristine template. -/
theorem processFile_invariance (msgNum : Int) (idxBytes : List Char) (fsize : Int)
    (floc : List Char) (tmpl : KV) (htmpl : hasRefsObj tmpl) (st : KV)
    (hr : Reach tmpl st) (st₂ : KV) (ws : List WrittenFile)
    (h : processFile msgNum idxBytes fsize floc st = .ok (st₂, ws)) :
    Reach tmpl st₂
    ∧ ∃ st₃, processFile msgNum idxBytes fsize floc tmpl = .ok (st₃, ws) := by
  unfold processFile at h ⊢
  cases hm : List.mapM (fun n => getE (pySplit ':' n) 1)
      ((pySplit '\n' idxBytes).dropLast) with
  | error e =>
    rw [hm] at h
    simp only [bind, Except.bind] at h
    exact absurd h (by simp)
  | ok msgNums =>
    rw [hm] at h
    simp only [bind, Except.bind] at h
    simp only [bind, Except.bind]
    cases hd : getE (pySplit '_' floc) 2 with
    | error e =>
      rw [hd] at h
      simp only [] at h
      exact absurd h (by simp)
    | ok ds =>
      rw [hd] at h
      simp only [] at h
      dsimp only
      cases hp : parseDatecode ds with
      | error e =>
        rw [hp] at h
        simp only [] at h
        exact absurd h (by simp)
      | ok dateSec =>
        rw [hp] at h
        simp only [] at h
        dsimp only
        exact loopIdx_invariance msgNum idxBytes msgNums fsize dateSec floc tmpl
          htmpl _ st hr st₂ ws h

/-- C7 (amended): `generate_json_files` reuses ONE mutable template dict
across files (each fill sees the previous fill's state, as the counterexample
shows), but because every fill overwrites the same complete set of entries,
the documents actually written are nevertheless exactly those an independent
per-file copy of the pristine template would have produced. -/
theorem claim_C7_amended (msgNum : Int) (files : List FileInput) (tmpl : KV)
    (htmpl : hasRefsObj tmpl) (stF : KV) (ws : List WrittenFile)
    (h : genLoop msgNum files tmpl = .ok (stF, ws)) :
    ∃ parts : List (List WrittenFile),
      List.Forall₂ (fun (f : FileInput) (p : List WrittenFile) =>
        ∃ st', processFile msgNum f.idxBytes f.fsize f.floc tmpl = .ok (st', p))
        files parts
      ∧ ws = parts.flatten := by
  have main : ∀ (fs : List FileInput) (st : KV), Reach tmpl st →
      ∀ (stF : KV) (ws : List WrittenFile), genLoop msgNum fs st = .ok (stF, ws) →
      ∃ parts : List (List WrittenFile),
        List.Forall₂ (fun (f : FileInput) (p : List WrittenFile) =>
          ∃ st', processFile msgNum f.idxBytes f.fsize f.floc tmpl = .ok (st', p))
          fs parts
        ∧ ws = parts.flatten := by
    intro fs
    induction fs with
    | nil =>
      intro st hr stF ws hgl
      simp only [genLoop] at hgl
      refine ⟨[], List.Forall₂.nil, ?_⟩
      cases hgl
      rfl
    | cons f rest ih =>
      intro st hr stF ws hgl
      simp only [genLoop] at hgl
      cases hpf : processFile msgNum f.idxBytes f.fsize f.floc st with
      | error e => rw [hpf] at hgl; cases hgl
      | ok q =>
        rw [hpf] at hgl
        simp only [bind, Except.bind] at hgl
        obtain ⟨hre, st₃, h₃⟩ := processFile_invariance msgNum f.idxBytes f.fsize
          f.floc tmpl htmpl st hr q.1 q.2 (by rw [hpf])
        cases hrest : genLoop msgNum rest q.1 with
        | error e => rw [hrest] at hgl; cases hgl
        | ok p =>
          rw [hrest] at hgl
          obtain ⟨parts, hf, hflat⟩ := ih q.1 hre p.1 p.2 (by rw [hrest])
          refine ⟨q.2 :: parts, List.Forall₂.cons ⟨st₃, h₃⟩ hf, ?_⟩
          cases hgl
          rw [List.flatten_cons, ← hflat]
  exact main files tmpl (Or.inl rfl) stF ws h

/-- The document the fill step produces for `fileEx` at ordinal 0. -/
def docW : KV := expectedDoc tmplEx (Val.arr [.str placeholderU, .int 0, .int 100]) 3

/-- C7, witness: running two files through the shared dict yields exactly the
two documents that independent pristine-template runs produce. -/
theorem claim_C7_witness :
    ∃ parts : List (List WrittenFile),
      List.Forall₂ (fun (f : FileInput) (p : List WrittenFile) =>
        ∃ st', processFile 0 f.idxBytes f.fsize f.floc tmplEx = .ok (st', p))
        [fileEx, fileEx] parts
      ∧ [⟨nameEx 0, docW⟩, ⟨nameEx 0, docW⟩] = parts.flatten :=
  claim_C7_amended 0 [fileEx, fileEx] tmplEx hasRefsObj_tmplEx docW
    [⟨nameEx 0, docW⟩, ⟨nameEx 0, docW⟩] rfl

/-! ## Claim C5: URI enumeration follows the fixed path template -/

theorem slash_not_mem_natToChars (n : Nat) : '/' ∉ natToChars n :=
  not_mem_natToChars_of_not_digit (by decide) n

/-- Peel the constant archive-root prefix off a `'/'` split. -/
theorem pySplit_base (T : List Char) :
    pySplit '/' (base_s3_reforecast ++ T)
      = "s3:".toList :: [] :: "noaa-gefs-retrospective".toList :: "GEFSv12".toList
        :: "reforecast".toList :: pySplit '/' T := by
  rw [show base_s3_reforecast ++ T
      = "s3:".toList ++ '/' :: ([] ++ '/' :: ("noaa-gefs-retrospective".toList
        ++ '/' :: ("GEFSv12".toList ++ '/' :: ("reforecast".toList ++ '/' :: T))))
      from rfl]
  rw [pySplit_append _ (by decide)]
  rw [pySplit_append _ (by decide)]
  rw [pySplit_append _ (by decide)]
  rw [pySplit_append _ (by decide)]
  rw [pySplit_append _ (by decide)]

/-- The full positional split of one subpath: the datecode token sits at
path-segment 6 and the member token at path-segment 7. -/
theorem pySplit_subpath (y g m fh : List Char) (hy : '/' ∉ y) (hg : '/' ∉ g)
    (hm : '/' ∉ m) :
    pySplit '/' (base_s3_reforecast ++ y ++ '/' :: y ++ g ++ "00/".toList
        ++ m ++ '/' :: fh ++ ['/'])
      = "s3:".toList :: [] :: "noaa-gefs-retrospective".toList :: "GEFSv12".toList
        :: "reforecast".toList :: y :: (y ++ g ++ "00".toList) :: m
        :: pySplit '/' (fh ++ ['/']) := by
  rw [show base_s3_reforecast ++ y ++ '/' :: y ++ g ++ "00/".toList
        ++ m ++ '/' :: fh ++ ['/']
      = base_s3_reforecast ++ (y ++ '/' :: ((y ++ g ++ "00".toList)
          ++ '/' :: (m ++ '/' :: (fh ++ ['/'])))) from by
    simp [List.append_assoc]]
  rw [pySplit_base]
  rw [pySplit_append _ hy]
  rw [pySplit_append _ (by
    intro hmem
    rcases List.mem_append.mp hmem with hmem1 | hmem1
    · rcases List.mem_append.mp hmem1 with hmem2 | hmem2
      · exact hy hmem2
      · exact hg hmem2
    · revert hmem1
      decide)]
  rw [pySplit_append _ hm]

/-- C5: `generate_reforecast_uris` produces exactly one URI per
year × day-pattern × member combination — the whole output list is the
Cartesian expansion, in order, of the fixed path template
`{root}/{year}/{year}{pattern}00/{member}/{horizon}/{variable}_{year}{pattern}00_{member}.grib2.idx`,
with the datecode and member tokens recovered positionally from path segments
6 and 7 — and its length is `|years| * |patterns| * |members|` with 20
years. -/
theorem claim_C5_uri_enumeration (glob_patterns members : List (List Char))
    (fh v : List Char)
    (hp : ∀ p ∈ glob_patterns, '/' ∉ p) (hm : ∀ m ∈ members, '/' ∉ m) :
    generate_reforecast_uris glob_patterns members fh v
      = (List.range' 2000 20).flatMap (fun year => glob_patterns.flatMap (fun g =>
          members.map (fun mem =>
            base_s3_reforecast ++ natToChars year ++ '/' :: natToChars year ++ g
              ++ "00/".toList ++ mem ++ '/' :: fh ++ '/' :: (v
              ++ '_' :: ((natToChars year ++ g ++ "00".toList)
              ++ '_' :: (mem ++ ".grib2.idx".toList))))))
    ∧ (generate_reforecast_uris glob_patterns members fh v).length
        = 20 * (glob_patterns.length * members.length) := by
  refine ⟨?_, uris_length glob_patterns members fh v⟩
  unfold generate_reforecast_uris
  rw [List.map_flatMap, List.flatMap_map, List.flatMap_assoc]
  refine List.flatMap_congr (fun year _ => ?_)
  rw [List.flatMap_map]
  refine List.flatMap_congr (fun g hg => ?_)
  rw [List.map_map]
  refine List.map_congr_left (fun mem hmem => ?_)
  have hy := slash_not_mem_natToChars year
  have hsplit := pySplit_subpath (natToChars year) g mem fh hy (hp g hg) (hm mem hmem)
  simp only [Function.comp_def]
  simp only [List.append_assoc] at hsplit ⊢
  rw [hsplit]
  simp [List.append_assoc]

/-- C5, witness: the spec's end-to-end scenario at one pattern and one
member: 20 URIs (one per year), each following the template. -/
theorem claim_C5_witness :
    generate_reforecast_uris ["0112".toList] ["c00".toList] "Days:1-10".toList
        "pres_msl".toList
      = (List.range' 2000 20).flatMap (fun year =>
          (["0112".toList] : List (List Char)).flatMap (fun g =>
            (["c00".toList] : List (List Char)).map (fun mem =>
              base_s3_reforecast ++ natToChars year ++ '/' :: natToChars year ++ g
                ++ "00/".toList ++ mem ++ '/' :: "Days:1-10".toList
                ++ '/' :: ("pres_msl".toList
                ++ '_' :: ((natToChars year ++ g ++ "00".toList)
                ++ '_' :: (mem ++ ".grib2.idx".toList))))))
    ∧ (generate_reforecast_uris ["0112".toList] ["c00".toList] "Days:1-10".toList
        "pres_msl".toList).length = 20 * (1 * 1) :=
  claim_C5_uri_enumeration ["0112".toList] ["c00".toList] "Days:1-10".toList
    "pres_msl".toList (by decide) (by decide)

/-! ## Claim C8: serialization round trip

`generate_file` (kerchunk_zarr.py lines 169-172) writes
`ujson.dumps(file, reject_bytes=False)`.  On the documents this code builds —
nested dicts of strings, integers and arrays, with no characters needing
escapes — `ujson.dumps` produces compact JSON: objects as
`\x7b"k":v,...\x7d`, arrays as `[v,...]`, strings quoted verbatim, integers
in decimal.  The serializer below is that fragment, and the parser reads it
back. -/

def quoteC : Char := Char.ofNat 34
def lbraceC : Char := Char.ofNat 123
def rbraceC : Char := Char.ofNat 125

/-- Decimal rendering of an integer. -/
def serInt (n : Int) : List Char :=
  if n < 0 then '-' :: natToChars (-n).toNat else natToChars n.toNat

mutual
/-- Compact JSON rendering of a value (the `ujson.dumps` fragment). -/
def serVal : Val → List Char
  | .obj [] => [lbraceC, rbraceC]
  | .obj ((k, v) :: rest) =>
    lbraceC :: quoteC :: k ++ quoteC :: ':' :: serVal v ++ serPairsRest rest ++ [rbraceC]
  | .arr [] => ['[', ']']
  | .arr (v :: rest) => '[' :: serVal v ++ serElemsRest rest ++ [']']
  | .str s => quoteC :: s ++ [quoteC]
  | .int n => serInt n

/-- Remaining object entries, each with its leading comma. -/
def serPairsRest : List (List Char × Val) → List Char
  | [] => []
  | (k, v) :: rest => ',' :: quoteC :: k ++ quoteC :: ':' :: serVal v ++ serPairsRest rest

/-- Remaining array elements, each with its leading comma. -/
def serElemsRest : List Val → List Char
  | [] => []
  | v :: rest => ',' :: serVal v ++ serElemsRest rest
end

/-- A string safe to serialize verbatim: no quote, no backslash (so `ujson`
would not escape anything in it). -/
def strOk (s : List Char) : Bool :=
  s.all (fun c => !(c == quoteC) && !(c == '\\'))

mutual
/-- Every string and key in the value is escape-free. -/
def safeVal : Val → Bool
  | .obj kvs => safePairs kvs
  | .arr vs => safeElems vs
  | .str s => strOk s
  | .int _ => true
def safePairs : List (List Char × Val) → Bool
  | [] => true
  | (k, v) :: rest => strOk k && safeVal v && safePairs rest
def safeElems : List Val → Bool
  | [] => true
  | v :: rest => safeVal v && safeElems rest
end

/-- Not a closing quote. -/
def notQuote (c : Char) : Bool := !(c == quoteC)

mutual
/-- Fuelled parser for the serialized fragment: one value. -/
def parseVal : Nat → List Char → Option (Val × List Char)
  | 0, _ => none
  | fuel + 1, s =>
    match s with
    | [] => none
    | c :: s1 =>
      if c = quoteC then
        match s1.dropWhile notQuote with
        | [] => none
        | _ :: r => some (.str (s1.takeWhile notQuote), r)
      else if c = lbraceC then
        match s1 with
        | [] => none
        | c2 :: s2 =>
          if c2 = rbraceC then some (.obj [], s2)
          else (parsePairs fuel s1).map (fun p => (Val.obj p.1, p.2))
      else if c = '[' then
        match s1 with
        | [] => none
        | c2 :: _ =>
          if c2 = ']' then some (.arr [], s1.tail)
          else (parseElems fuel s1).map (fun p => (Val.arr p.1, p.2))
      else if c = '-' then
        let ds := s1.takeWhile Char.isDigit
        if ds = [] then none
        else some (.int (-(charsToNat ds : Int)), s1.dropWhile Char.isDigit)
      else if c.isDigit then
        some (.int ((charsToNat ((c :: s1).takeWhile Char.isDigit) : Int)),
          (c :: s1).dropWhile Char.isDigit)
      else none

/-- Fuelled parser: a nonempty run of `"key":value` pairs up to and including
the closing brace. -/
def parsePairs : Nat → List Char → Option (List (List Char × Val) × List Char)
  | 0, _ => none
  | fuel + 1, s =>
    match s with
    | [] => none
    | c :: s1 =>
      if c = quoteC then
        match s1.dropWhile notQuote with
        | [] => none
        | _ :: s2 =>
          match s2 with
          | [] => none
          | c2 :: s3 =>
            if c2 = ':' then
              match parseVal fuel s3 with
              | some (v, s4) =>
                match s4 with
                | [] => none
                | c3 :: s5 =>
                  if c3 = ',' then
                    match parsePairs fuel s5 with
                    | some (kvs, r) => some ((s1.takeWhile notQuote, v) :: kvs, r)
                    | none => none
                  else if c3 = rbraceC then
                    some ([(s1.takeWhile notQuote, v)], s5)
                  else none
              | none => none
            else none
      else none

/-- Fuelled parser: a nonempty run of array elements up to and including the
closing bracket. -/
def parseElems : Nat → List Char → Option (List Val × List Char)
  | 0, _ => none
  | fuel + 1, s =>
    match parseVal fuel s with
    | some (v, s1) =>
      match s1 with
      | [] => none
      | c :: s2 =>
        if c = ',' then
          match parseElems fuel s2 with
          | some (vs, r) => some (v :: vs, r)
          | none => none
        else if c = ']' then some ([v], s2)
        else none
    | none => none
end

/-- What may follow a serialized value so that parsing it back stops in the
right place: after an integer the next character must not be a digit (in the
documents at hand it is always a comma, bracket or brace). -/
def restOkFor (v : Val) (rest : List Char) : Prop :=
  match v, rest with
  | .int _, c :: _ => c.isDigit = false
  | _, _ => True

theorem strOk_notQuote {s : List Char} (h : strOk s = true) :
    ∀ c ∈ s, notQuote c = true := by
  intro c hc
  unfold strOk at h
  rw [List.all_eq_true] at h
  have h2 := h c hc
  rw [Bool.and_eq_true] at h2
  exact h2.1

theorem takeWhile_append_stop (p : Char → Bool) (s rest : List Char)
    (hs : ∀ c ∈ s, p c = true)
    (hrest : rest = [] ∨ ∃ c t, rest = c :: t ∧ p c = false) :
    (s ++ rest).takeWhile p = s ∧ (s ++ rest).dropWhile p = rest := by
  induction s with
  | nil =>
    rcases hrest with rfl | ⟨c, t, rfl, hc⟩
    · exact ⟨rfl, rfl⟩
    · simp [List.takeWhile_cons, List.dropWhile_cons, hc]
  | cons a s' ih =>
    have ha : p a = true := hs a (List.mem_cons_self a s')
    have h2 := ih (fun c hc => hs c (List.mem_cons_of_mem a hc))
    simp [List.takeWhile_cons, List.dropWhile_cons, ha, h2.1, h2.2]

theorem serVal_ne_nil : ∀ v : Val, serVal v ≠ [] := by
  intro v
  match v with
  | .obj [] => simp [serVal]
  | .obj ((k, v') :: rest) => simp [serVal]
  | .arr [] => simp [serVal]
  | .arr (v' :: rest) => simp [serVal]
  | .str s => simp [serVal]
  | .int n =>
    simp only [serVal, serInt]
    by_cases hn : n < 0
    · simp [hn]
    · simp [hn, natToChars_ne_nil]

theorem natToChars_head_digit {n : Nat} {h : Char} {t : List Char}
    (he : natToChars n = h :: t) : h.isDigit = true :=
  natToChars_digits n h (he ▸ List.mem_cons_self h t)

theorem serVal_head_ne_rbrack : ∀ (v : Val) (h : Char) (t : List Char),
    serVal v = h :: t → h ≠ ']' := by
  intro v h t he
  match v with
  | .obj [] =>
    simp only [serVal] at he
    cases he
    decide
  | .obj ((k, v') :: rest) =>
    simp only [serVal] at he
    cases he
    decide
  | .arr [] =>
    simp only [serVal] at he
    cases he
    decide
  | .arr (v' :: rest) =>
    simp only [serVal, List.cons_append] at he
    cases he
    decide
  | .str s =>
    simp only [serVal, List.cons_append] at he
    cases he
    decide
  | .int n =>
    simp only [serVal, serInt] at he
    by_cases hn : n < 0
    · rw [if_pos hn] at he
      cases he
      decide
    · rw [if_neg hn] at he
      exact isDigit_ne (natToChars_head_digit he) (by decide)

/-- Inside an object, the character after a serialized value is a comma or
the closing brace — never a digit, so an integer value parses back exactly. -/
theorem restOk_pairs (v : Val) (kvs : List (List Char × Val)) (rest : List Char) :
    restOkFor v (serPairsRest kvs ++ rbraceC :: rest) := by
  cases v with
  | int n =>
    cases kvs with
    | nil => simp [restOkFor, serPairsRest]; decide
    | cons p kvs' =>
      obtain ⟨k2, v2⟩ := p
      simp [restOkFor, serPairsRest]
  | obj kvs' => trivial
  | arr vs => trivial
  | str s => trivial

/-- Inside an array, the character after a serialized value is a comma or the
closing bracket — never a digit. -/
theorem restOk_elems (v : Val) (vs : List Val) (rest : List Char) :
    restOkFor v (serElemsRest vs ++ ']' :: rest) := by
  cases v with
  | int n =>
    cases vs with
    | nil => simp [restOkFor, serElemsRest]
    | cons v' vs' => simp [restOkFor, serElemsRest]
  | obj kvs' => trivial
  | arr vs' => trivial
  | str s => trivial

/-- Parsing inverts serialization: for every escape-free value, enough fuel,
and a follower that cannot extend an integer literal, the parser returns the
value and the untouched follower.  Stated simultaneously for values, nonempty
object bodies and nonempty array bodies. -/
theorem parse_serVal : ∀ fuel : Nat,
    (∀ (v : Val) (rest : List Char), safeVal v = true → restOkFor v rest →
      (serVal v).length ≤ fuel →
      parseVal fuel (serVal v ++ rest) = some (v, rest))
    ∧ (∀ (k : List Char) (v : Val) (kvs : List (List Char × Val)) (rest : List Char),
      strOk k = true → safeVal v = true → safePairs kvs = true →
      (quoteC :: (k ++ quoteC :: ':' :: (serVal v ++ serPairsRest kvs))).length ≤ fuel →
      parsePairs fuel
          (quoteC :: (k ++ quoteC :: ':'
            :: (serVal v ++ (serPairsRest kvs ++ rbraceC :: rest))))
        = some ((k, v) :: kvs, rest))
    ∧ (∀ (v : Val) (vs : List Val) (rest : List Char),
      safeVal v = true → safeElems vs = true →
      (serVal v ++ serElemsRest vs).length < fuel →
      parseElems fuel (serVal v ++ (serElemsRest vs ++ ']' :: rest))
        = some (v :: vs, rest)) := by
  intro fuel
  induction fuel with
  | zero =>
    refine ⟨?_, ?_, ?_⟩
    · intro v rest _ _ hlen
      exact absurd (List.length_eq_zero.mp (Nat.le_zero.mp hlen)) (serVal_ne_nil v)
    · intro k v kvs rest _ _ _ hlen
      simp at hlen
    · intro v vs rest _ _ hlen
      exact absurd hlen (Nat.not_lt_zero _)
  | succ fuel ih =>
    obtain ⟨ihv, ihp, ihe⟩ := ih
    refine ⟨?_, ?_, ?_⟩
    · intro v rest hsafe hrest hlen
      match v with
      | .str s =>
        simp only [serVal, List.cons_append, List.append_assoc, List.singleton_append, List.nil_append]
        simp only [parseVal]
        rw [if_pos (by trivial)]
        have hstop := takeWhile_append_stop notQuote s (quoteC :: rest)
          (strOk_notQuote (by simpa [safeVal] using hsafe))
          (Or.inr ⟨quoteC, rest, rfl, by simp [notQuote]⟩)
        rw [hstop.2, hstop.1]
      | .int n =>
        have hrest' : rest = [] ∨ ∃ c t, rest = c :: t ∧ Char.isDigit c = false := by
          cases rest with
          | nil => exact Or.inl rfl
          | cons c t => exact Or.inr ⟨c, t, rfl, hrest⟩
        by_cases hn : n < 0
        · simp only [serVal, serInt, if_pos hn, List.cons_append]
          simp only [parseVal]
          rw [if_neg (by decide), if_neg (by decide), if_neg (by decide), if_pos (by trivial)]
          have hstop := takeWhile_append_stop Char.isDigit (natToChars (-n).toNat) rest
            (fun c hc => natToChars_digits _ c hc) hrest'
          rw [hstop.1, hstop.2]
          rw [if_neg (natToChars_ne_nil _)]
          rw [charsToNat_natToChars]
          rw [show (((-n).toNat : Int)) = -n from Int.toNat_of_nonneg (by omega)]
          simp
        · obtain ⟨h, t, hht⟩ := List.exists_cons_of_ne_nil (natToChars_ne_nil n.toNat)
          have hd : h.isDigit = true := natToChars_head_digit hht
          simp only [serVal, serInt, if_neg hn]
          rw [hht]
          simp only [List.cons_append, parseVal]
          rw [if_neg (isDigit_ne hd (by decide)), if_neg (isDigit_ne hd (by decide)),
            if_neg (isDigit_ne hd (by decide)), if_neg (isDigit_ne hd (by decide)),
            if_pos hd]
          rw [← List.cons_append, ← hht]
          have hstop := takeWhile_append_stop Char.isDigit (natToChars n.toNat) rest
            (fun c hc => natToChars_digits _ c hc) hrest'
          rw [hstop.1, hstop.2]
          rw [charsToNat_natToChars]
          rw [show ((n.toNat : Int)) = n from Int.toNat_of_nonneg (by omega)]
      | .obj [] =>
        simp only [serVal, List.cons_append, parseVal]
        rw [if_neg (by decide), if_pos (by trivial)]
        rw [if_pos (by trivial)]
        simp only [List.nil_append]
      | .obj ((k, v') :: kvs) =>
        have hs : strOk k = true ∧ safeVal v' = true ∧ safePairs kvs = true := by
          simpa [safeVal, safePairs, Bool.and_eq_true, and_assoc] using hsafe
        simp only [serVal, List.cons_append, List.append_assoc,
          List.singleton_append] at hlen ⊢
        simp only [parseVal]
        rw [if_neg (by decide), if_pos (by trivial)]
        rw [if_neg (by decide)]
        simp only [List.nil_append]
        rw [ihp k v' kvs rest hs.1 hs.2.1 hs.2.2 (by
          simp only [List.length_cons, List.length_append] at hlen ⊢
          omega)]
        rfl
      | .arr [] =>
        simp only [serVal, List.cons_append, parseVal]
        rw [if_neg (by decide), if_neg (by decide), if_pos (by trivial)]
        rw [if_pos (by trivial)]
        simp only [List.nil_append, List.tail_cons]
      | .arr (v' :: vs) =>
        have hs : safeVal v' = true ∧ safeElems vs = true := by
          simpa [safeVal, safeElems, Bool.and_eq_true] using hsafe
        simp only [serVal, List.cons_append, List.append_assoc,
          List.singleton_append] at hlen ⊢
        obtain ⟨h, t, hht⟩ := List.exists_cons_of_ne_nil (serVal_ne_nil v')
        rw [hht]
        simp only [List.cons_append, parseVal]
        rw [if_neg (by decide), if_neg (by decide), if_pos (by trivial)]
        rw [if_neg (serVal_head_ne_rbrack v' h t hht)]
        simp only [List.nil_append]
        rw [← List.cons_append, ← hht]
        rw [ihe v' vs rest hs.1 hs.2 (by
          simp only [List.length_cons, List.length_append] at hlen ⊢
          omega)]
        rfl
    · intro k v kvs rest hk hv hkvs hlen
      simp only [parsePairs]
      rw [if_pos (by trivial)]
      have hstop := takeWhile_append_stop notQuote k
        (quoteC :: ':' :: (serVal v ++ (serPairsRest kvs ++ rbraceC :: rest)))
        (strOk_notQuote hk) (Or.inr ⟨quoteC, _, rfl, by simp [notQuote]⟩)
      rw [hstop.2, hstop.1]
      dsimp only
      rw [if_pos (by trivial)]
      rw [ihv v (serPairsRest kvs ++ rbraceC :: rest) hv (restOk_pairs v kvs rest) (by
        simp only [List.length_cons, List.length_append] at hlen ⊢
        omega)]
      cases kvs with
      | nil =>
        simp only [serPairsRest, List.nil_append]
        rw [if_neg (by decide), if_pos (by trivial)]
      | cons p kvs' =>
        obtain ⟨k2, v2⟩ := p
        have hs2 : strOk k2 = true ∧ safeVal v2 = true ∧ safePairs kvs' = true := by
          simpa [safePairs, Bool.and_eq_true, and_assoc] using hkvs
        simp only [serPairsRest, List.cons_append, List.append_assoc]
        rw [if_pos (by trivial)]
        rw [ihp k2 v2 kvs' rest hs2.1 hs2.2.1 hs2.2.2 (by
          simp only [serPairsRest, List.length_cons, List.length_append] at hlen ⊢
          omega)]
    · intro v vs rest hv hvs hlen
      simp only [parseElems]
      rw [ihv v (serElemsRest vs ++ ']' :: rest) hv (restOk_elems v vs rest) (by
        simp only [List.length_append] at hlen ⊢
        omega)]
      cases vs with
      | nil =>
        simp only [serElemsRest, List.nil_append]
        rw [if_neg (by decide), if_pos (by trivial)]
      | cons v2 vs' =>
        have hs2 : safeVal v2 = true ∧ safeElems vs' = true := by
          simpa [safeElems, Bool.and_eq_true] using hvs
        simp only [serElemsRest, List.cons_append, List.append_assoc]
        rw [if_pos (by trivial)]
        rw [ihe v2 vs' rest hs2.1 hs2.2 (by
          simp only [serElemsRest, List.length_cons, List.length_append] at hlen ⊢
          omega)]

theorem kvGet_fillPure_templatesK (st : KV) (mr : Val) (url : List Char)
    (t vt sp : Int) :
    kvGet (fillPure st mr url t vt sp) templatesK
      = some (Val.obj [(uK, Val.str url)]) := by
  unfold fillPure
  exact kvGet_kvSet_self _ _ _

/-- `ujson.dumps` of a document (a JSON object). -/
def serDoc (d : KV) : List Char := serVal (.obj d)

/-- Read a serialized filled document back: parse it, then return the
`(url, start, length)` triple encoded by its `refs["msl/0.0"]` payload entry
and its `templates["u"]` binding. -/
def readFilled (s : List Char) : Option (List Char × Int × Int) :=
  match parseVal s.length s with
  | some (.obj d, []) =>
    match kvGet (getRefs d) mslK, kvGet d templatesK with
    | some (.arr [.str _, .int a, .int b]), some (.obj t) =>
      match kvGet t uK with
      | some (.str u) => some (u, a, b)
      | _ => none
    | _, _ => none
  | _ => none

/-- C8: filling the template writes the payload entry as the 3-element
descriptor `[placeholder, start, length]` and the template binding `u ↦ url`;
serializing the filled document and reading the payload entry and binding
back recovers the identical `(url, start, length)` triple.  (The template
must hold a `"refs"` dict, and the document must be escape-free, which every
document this pipeline builds is.) -/
theorem claim_C8_roundtrip (tmpl : KV) (url : List Char) (start len t vt sp : Int)
    (htmpl : hasRefsObj tmpl)
    (hsafe : safeVal (.obj (fillPure tmpl
        (Val.arr [.str placeholderU, .int start, .int len]) url t vt sp)) = true) :
    fillDocE tmpl (Val.arr [.str placeholderU, .int start, .int len]) url t vt sp
      = .ok (fillPure tmpl (Val.arr [.str placeholderU, .int start, .int len]) url t vt sp)
    ∧ readFilled (serDoc (fillPure tmpl
        (Val.arr [.str placeholderU, .int start, .int len]) url t vt sp))
      = some (url, start, len) := by
  refine ⟨fillDocE_eq tmpl _ url t vt sp htmpl, ?_⟩
  have hparse := (parse_serVal (serVal (Val.obj (fillPure tmpl
      (Val.arr [.str placeholderU, .int start, .int len]) url t vt sp))).length).1
    (Val.obj (fillPure tmpl (Val.arr [.str placeholderU, .int start, .int len]) url t vt sp))
    [] hsafe trivial le_rfl
  rw [List.append_nil] at hparse
  unfold readFilled serDoc
  rw [hparse]
  have h1 : kvGet (getRefs (fillPure tmpl
      (Val.arr [.str placeholderU, .int start, .int len]) url t vt sp)) mslK
      = some (Val.arr [.str placeholderU, .int start, .int len]) := by
    rw [getRefs_fillPure, kvGet_inner4_mslK]
  have h2 : kvGet (fillPure tmpl
      (Val.arr [.str placeholderU, .int start, .int len]) url t vt sp) templatesK
      = some (Val.obj [(uK, Val.str url)]) :=
    kvGet_fillPure_templatesK tmpl _ url t vt sp
  dsimp only
  rw [h1, h2]
  rfl

/-- C8, witness: a concrete fill, serialize, and read-back. -/
theorem claim_C8_witness :
    fillDocE tmplEx (Val.arr [.str placeholderU, .int 100, .int 150])
        "s3://noaa-gefs-retrospective/x.grib2".toList 947635200 947646000 3
      = .ok (fillPure tmplEx (Val.arr [.str placeholderU, .int 100, .int 150])
          "s3://noaa-gefs-retrospective/x.grib2".toList 947635200 947646000 3)
    ∧ readFilled (serDoc (fillPure tmplEx
        (Val.arr [.str placeholderU, .int 100, .int 150])
        "s3://noaa-gefs-retrospective/x.grib2".toList 947635200 947646000 3))
      = some ("s3://noaa-gefs-retrospective/x.grib2".toList, 100, 150) :=
  claim_C8_roundtrip tmplEx "s3://noaa-gefs-retrospective/x.grib2".toList 100 150
    947635200 947646000 3 hasRefsObj_tmplEx (by rfl)

end GefsRetro
